import Mathlib

/-!
# Ledger Gitopia user-app client (`user_app.go`)

A shallow embedding of the APDU framing done by `user_app.go`: session
initialisation (`FindLedgerCosmosUserApp`, `LoadAppName`, `LoadVersion`,
`CheckVersion`), `GetBip32bytes`, `sign`, `getAddressPubKeySECP256K1` and the
exported wrappers.

Conventions.
* A Go `byte` is a `Nat` below 256; a byte slice and a Go `string` are both
  `List Nat` (a Go string is a byte sequence, `len` counts bytes).  The nil
  slice and the empty slice are both `[]`.
* Arithmetic on `byte` wraps: every such operation is written with `% 256`.
* The transport `ledger.api.Exchange` is an argument: a function from the
  requests already sent during the call and the current request to a reply.
* `GetBip32bytesv2` lives in another file of the package and is an argument.
-/

namespace LedgerGitopia

/-! ## Data model -/

/-- Go `error` values the client returns, kept apart by the place that makes them. -/
inductive Error where
  /-- Built by `fmt.Errorf` from a literal message. -/
  | errorf (msg : String)
  /-- Built by `fmt.Errorf(string(response))`: the format string is the device payload. -/
  | errorfBytes (payload : List Nat)
  /-- The error returned by `api.Exchange`, handed on unchanged (`e` is `err.Error()`). -/
  | exchange (e : String)
  /-- The error returned by `GetBip32bytesv2`, handed on unchanged. -/
  | bip32 (e : String)
  /-- The error returned by `ledger_go.FindLedger`, handed on unchanged. -/
  | findLedger (e : String)
  deriving DecidableEq, Repr

/-- Result of one `api.Exchange` call: response bytes and `err.Error()` when it failed. -/
structure Reply where
  response : List Nat
  err : Option String
  deriving DecidableEq, Repr

/-- One request buffer handed to the transport. -/
abbrev Packet := List Nat

/-- The transport as seen by one call: given the requests already exchanged in
this call (oldest first) and the current request, the reply. -/
abbrev Exchange := List Packet → Packet → Reply

/-- The four version bytes reported by the device. -/
structure VersionInfo where
  AppMode : Nat
  Major : Nat
  Minor : Nat
  Patch : Nat
  deriving DecidableEq, Repr

/-- Session state of `LedgerCosmos` (the `api` field is the `Exchange` argument). -/
structure LedgerCosmos where
  appName : List Nat
  version : VersionInfo
  deriving DecidableEq, Repr

/-- What `user_app.go` takes from outside the file. -/
structure Platform where
  /-- The path encoder `GetBip32bytesv2(bip32Path, hardenCount)` of the package. -/
  GetBip32bytesv2 : List Nat → Nat → Except String (List Nat)
  /-- Result of the conversion `byte(f)` of line 185 when the float64 `f` is 256
  or more, which the Go specification leaves to the implementation (argument:
  the transaction length). -/
  byteOfLargeFloat : Nat → Nat

/-! ## Constants -/

def userCLA : Nat := 0x55
def userINSGetVersion : Nat := 0
def userINSSignSECP256K1 : Nat := 2
def userINSGetAddrSecp256k1 : Nat := 4
def userMessageChunkSize : Nat := 250

/-- Bytes of the string literal `"Gitopia"`. -/
def gitopiaAppName : List Nat := [71, 105, 116, 111, 112, 105, 97]

/-- Bytes of an ASCII string literal. -/
def strBytes (s : String) : List Nat := s.toList.map Char.toNat

/-! ## `GetBip32bytes` (lines 166-180) -/

def GetBip32bytes (pf : Platform) (ledger : LedgerCosmos) (bip32Path : List Nat)
    (_hardenCount : Nat) : Except Error (List Nat) :=
  if ledger.appName = gitopiaAppName then
    match pf.GetBip32bytesv2 bip32Path 3 with
    | .error e => .error (.bip32 e)
    | .ok pathBytes => .ok pathBytes
  else
    .error (.errorf "App version is not supported")

/-! ## `sign` (lines 183-244) -/

/-- The conversion `byte(math.Ceil(float64(n)/float64(250)))`.  While the
ceiling is below 256 (`n ≤ 63750`) every float64 step is exact enough for the
result to be the integer ceiling; a ceiling of 256 or more does not fit a byte
and the outcome is the platform's. -/
def byteOfCeil (pf : Platform) (n : Nat) : Nat :=
  let c := (n + (userMessageChunkSize - 1)) / userMessageChunkSize
  if c < 256 then c else pf.byteOfLargeFloat n % 256

/-- Line 185: `packetCount = 1 + byte(math.Ceil(...))`, an addition on `byte`. -/
def packetCount (pf : Platform) (transaction : List Nat) : Nat :=
  (1 + byteOfCeil pf transaction.length) % 256

/-- Lines 214-234: the error `sign` returns when `Exchange` failed with `e`. -/
def signError (e : String) (response : List Nat) : Error :=
  if e = "[APDU_CODE_BAD_KEY_HANDLE] The parameters in the data field are incorrect" then
    if response = strBytes "ERROR: JSMN_ERROR_NOMEM" then
      .errorf "Not enough tokens were provided"
    else if response = strBytes "PARSER ERROR: JSMN_ERROR_INVAL" then
      .errorf "Unexpected character in JSON string"
    else if response = strBytes "PARSER ERROR: JSMN_ERROR_PART" then
      .errorf "The JSON string is not a complete."
    else
      .errorfBytes response
  else if e = "[APDU_CODE_DATA_INVALID] Referenced data reversibly blocked (invalidated)" then
    .errorfBytes response
  else
    .exchange e

/-- Variables of the packet loop of `sign`, with the requests sent so far. -/
structure SignState where
  packetIndex : Nat
  packetCount : Nat
  transaction : List Nat
  finalResponse : List Nat
  sent : List Packet
  deriving DecidableEq, Repr

/-- What a run of `sign` has done: `result = none` while the loop has not
returned, otherwise the returned pair `([]byte, error)`; `sent` lists the
requests passed to `Exchange`, oldest first. -/
structure SignRun where
  result : Option (List Nat × Option Error)
  sent : List Packet
  deriving DecidableEq, Repr

/-- Lines 192-212: the `chunk` value and the message built in one iteration. -/
def signMessage (pf : Platform) (ledger : LedgerCosmos) (bip32Path : List Nat)
    (s : SignState) : Except Error (Nat × Packet) :=
  let chunk := userMessageChunkSize
  if s.packetIndex = 1 then
    match GetBip32bytes pf ledger bip32Path 3 with
    | .error e => .error e
    | .ok pathBytes =>
      .ok (chunk, [userCLA, userINSSignSECP256K1, 0, 0, pathBytes.length % 256] ++ pathBytes)
  else
    let chunk := if s.transaction.length < userMessageChunkSize then s.transaction.length else chunk
    let payloadDesc := if s.packetIndex = s.packetCount then 2 else 1
    .ok (chunk, [userCLA, userINSSignSECP256K1, payloadDesc, 0, chunk % 256]
                  ++ s.transaction.take chunk)

/-- Lines 191-243: the packet loop, one iteration per unit of fuel. -/
def signLoop (pf : Platform) (ledger : LedgerCosmos) (api : Exchange) (bip32Path : List Nat) :
    Nat → SignState → SignRun
  | 0, s => ⟨none, s.sent⟩
  | fuel + 1, s =>
    if s.packetIndex ≤ s.packetCount then
      match signMessage pf ledger bip32Path s with
      | .error e => ⟨some ([], some e), s.sent⟩
      | .ok (chunk, message) =>
        match (api s.sent message).err with
        | some e => ⟨some ([], some (signError e (api s.sent message).response)),
                      s.sent ++ [message]⟩
        | none =>
          signLoop pf ledger api bip32Path fuel
            { packetIndex := (s.packetIndex + 1) % 256
              packetCount := s.packetCount
              transaction := if s.packetIndex > 1 then s.transaction.drop chunk
                             else s.transaction
              finalResponse := (api s.sent message).response
              sent := s.sent ++ [message] }
    else
      ⟨some (s.finalResponse, none), s.sent⟩

/-- The function `sign`, run for at most `fuel` iterations of its loop. -/
def sign (pf : Platform) (ledger : LedgerCosmos) (api : Exchange) (fuel : Nat)
    (bip32Path : List Nat) (transaction : List Nat) : SignRun :=
  signLoop pf ledger api bip32Path fuel
    { packetIndex := 1
      packetCount := packetCount pf transaction
      transaction := transaction
      finalResponse := []
      sent := [] }

/-! ## `getAddressPubKeySECP256K1` (lines 155-158, 248-290) -/

def validHRPByte (b : Nat) : Bool := b ≥ 33 && b ≤ 126

/-- The triple `(pubkey, addr, err)` returned by `getAddressPubKeySECP256K1`
together with the requests passed to `Exchange`. -/
structure AddrRun where
  pubkey : List Nat
  addr : List Nat
  err : Option Error
  sent : List Packet
  deriving DecidableEq, Repr

/-- Lines 271-275: the request, with its length byte patched after assembly. -/
def addrMessage (hrpBytes pathBytes : List Nat) (requireConfirmation : Bool) : Packet :=
  let p1 := if requireConfirmation then 1 else 0
  let header := [userCLA, userINSGetAddrSecp256k1, p1, 0, 0]
  let message := header ++ [hrpBytes.length % 256]
  let message := message ++ hrpBytes
  let message := message ++ pathBytes
  message.set 4 ((message.length - header.length) % 256)

def getAddressPubKeySECP256K1 (pf : Platform) (ledger : LedgerCosmos) (api : Exchange)
    (bip32Path : List Nat) (hrp : List Nat) (requireConfirmation : Bool) : AddrRun :=
  if hrp.length > 83 then
    ⟨[], [], some (.errorf "hrp len should be <10"), []⟩
  else if ! hrp.all validHRPByte then
    ⟨[], [], some (.errorf "all characters in the HRP must be in the [33, 126] range"), []⟩
  else
    match GetBip32bytes pf ledger bip32Path 3 with
    | .error e => ⟨[], [], some e, []⟩
    | .ok pathBytes =>
      let message := addrMessage hrp pathBytes requireConfirmation
      let r := api [] message
      match r.err with
      | some e => ⟨[], [], some (.exchange e), [message]⟩
      | none =>
        if r.response.length < 35 + hrp.length then
          ⟨[], [], some (.errorf "Invalid response"), [message]⟩
        else
          ⟨r.response.take 33, r.response.drop 33, none, [message]⟩

/-! ## The exported wrappers (lines 142-164) -/

/-- The pair `(pubkey, err)` returned by `GetPublicKeySECP256K1` together with
the requests passed to `Exchange`. -/
structure PubKeyRun where
  pubkey : List Nat
  err : Option Error
  sent : List Packet
  deriving DecidableEq, Repr

/-- Bytes of the string literal `"gitopia"`, the HRP of `GetPublicKeySECP256K1`. -/
def gitopiaHRP : List Nat := [103, 105, 116, 111, 112, 105, 97]

/-- Lines 144-146.  The method has a pointer receiver; like every wrapper below
it is written in state-passing form and returns the session as the call leaves it
next to what the Go method returns.  Neither its body nor the body of `sign`
assigns to a field of the receiver. -/
def SignSECP256K1 (pf : Platform) (ledger : LedgerCosmos) (api : Exchange) (fuel : Nat)
    (bip32Path : List Nat) (transaction : List Nat) : LedgerCosmos × SignRun :=
  (ledger, sign pf ledger api fuel bip32Path transaction)

/-- Lines 150-153: `getAddressPubKeySECP256K1(bip32Path, "gitopia", false)`, the
address being dropped. -/
def GetPublicKeySECP256K1 (pf : Platform) (ledger : LedgerCosmos) (api : Exchange)
    (bip32Path : List Nat) : LedgerCosmos × PubKeyRun :=
  let r := getAddressPubKeySECP256K1 pf ledger api bip32Path gitopiaHRP false
  (ledger, ⟨r.pubkey, r.err, r.sent⟩)

/-- Lines 162-164: `getAddressPubKeySECP256K1(bip32Path, hrp, true)`. -/
def GetAddressPubKeySECP256K1 (pf : Platform) (ledger : LedgerCosmos) (api : Exchange)
    (bip32Path : List Nat) (hrp : List Nat) : LedgerCosmos × AddrRun :=
  (ledger, getAddressPubKeySECP256K1 pf ledger api bip32Path hrp true)

/-! ## `CheckVersion`, `LoadVersion`, `LoadAppName` (lines 87-139) -/

/-- How a call that can fault ends: it returns its `error` value (`none` is
`nil`) or it stops in a run-time panic. -/
inductive Ending where
  | returned (err : Option Error)
  | panicked
  deriving DecidableEq, Repr

/-- A call of `LoadVersion` or `LoadAppName`: the session as the call leaves it,
how the call ends, and the requests passed to `Exchange`. -/
structure LoadRun where
  ledger : LedgerCosmos
  ending : Ending
  sent : List Packet
  deriving DecidableEq, Repr

/-- Lines 87-98: the body is commented out down to `return nil`.  The result is
the session as the call leaves it and the returned `error`. -/
def CheckVersion (ledger : LedgerCosmos) : LedgerCosmos × Option Error :=
  (ledger, none)

/-- Lines 101-121.  The four index expressions come after the length check, so
they are in range. -/
def LoadVersion (ledger : LedgerCosmos) (api : Exchange) : LoadRun :=
  let message := [userCLA, userINSGetVersion, 0, 0, 0]
  let r := api [] message
  match r.err with
  | some e => ⟨ledger, .returned (some (.exchange e)), [message]⟩
  | none =>
    if r.response.length < 4 then
      ⟨ledger, .returned (some (.errorf "invalid response")), [message]⟩
    else
      ⟨{ ledger with
          version :=
            { AppMode := r.response.getD 0 0
              Major := r.response.getD 1 0
              Minor := r.response.getD 2 0
              Patch := r.response.getD 3 0 } },
        .returned none, [message]⟩

/-- Lines 123-139.  `response[0]` and `response[1]` are index expressions and
panic at or beyond `len(response)`.  `response[idx : idx+appNameLen]` is a slice
expression on a slice, whose upper bound is checked against the capacity:
`spare` holds the bytes of the response's backing array between its length and
its capacity. -/
def LoadAppName (ledger : LedgerCosmos) (api : Exchange) (spare : List Nat) : LoadRun :=
  let message := [0xb0, 0x01, 0, 0, 0]
  let r := api [] message
  match r.err with
  | some e => ⟨ledger, .returned (some (.exchange e)), [message]⟩
  | none =>
    match r.response[0]? with
    | none => ⟨ledger, .panicked, [message]⟩
    | some marker =>
      if marker ≠ 1 then
        ⟨ledger, .returned (some (.errorf "response format ID not recognized")), [message]⟩
      else
        let idx := 2
        match r.response[1]? with
        | none => ⟨ledger, .panicked, [message]⟩
        | some appNameLen =>
          if idx + appNameLen ≤ r.response.length + spare.length then
            ⟨{ ledger with appName := ((r.response ++ spare).drop idx).take appNameLen },
              .returned none, [message]⟩
          else
            ⟨ledger, .panicked, [message]⟩

/-! ## `FindLedgerCosmosUserApp` (lines 44-79) -/

/-- Text of `fmt.Errorf(format)` called without operands, after the rules of
Go's package `fmt`: bytes other than `%` are copied; `%%` gives `%`; `%` followed
by a letter `v` gives `%!v(MISSING)`; a `%` that ends the format gives
`%!(NOVERB)`.  Formats with flags, widths, precisions or argument indexes after a
`%` are not rendered here (`none`). -/
def errorfText : List Nat → Option (List Nat)
  | [] => some []
  | [b] => if b = 37 then some (strBytes "%!(NOVERB)") else some [b]
  | b :: v :: rest =>
    if b ≠ 37 then
      (errorfText (v :: rest)).map (fun t => b :: t)
    else if v = 37 then
      (errorfText rest).map (fun t => 37 :: t)
    else if (65 ≤ v ∧ v ≤ 90) ∨ (97 ≤ v ∧ v ≤ 122) then
      (errorfText rest).map (fun t => strBytes "%!" ++ [v] ++ strBytes "(MISSING)" ++ t)
    else
      none

/-- The comparison `err.Error() == lit` for an ASCII literal `lit`. -/
def errorIs (err : Error) (lit : String) : Bool :=
  match err with
  | .errorf msg => errorfText (strBytes msg) == some (strBytes lit)
  | .errorfBytes payload => errorfText payload == some (strBytes lit)
  | .exchange e => e == lit
  | .bip32 e => e == lit
  | .findLedger e => e == lit

/-- What a call of `FindLedgerCosmosUserApp` has done: the client it returns
(`none` is `nil`), how it ends, the number of calls of the transport's `Close`,
and the requests passed to `Exchange`. -/
structure FindRun where
  client : Option LedgerCosmos
  ending : Ending
  closes : Nat
  sent : List Packet
  deriving DecidableEq, Repr

/-- The value `LedgerCosmos{"", ledgerAPI, VersionInfo{}}` of line 51. -/
def newApp : LedgerCosmos := { appName := [], version := ⟨0, 0, 0, 0⟩ }

/-- Lines 44-79.  `found` is the result of `ledger_go.FindLedger()`.  Each
`defer ledgerAPI.Close()` is reached only inside an error branch and runs once
when the function returns; a panic of `LoadAppName` unwinds before any `defer`
statement has run.  `LoadVersion` talks to the same transport after the request
of `LoadAppName`. -/
def FindLedgerCosmosUserApp (found : Except String Exchange) (spare : List Nat) : FindRun :=
  match found with
  | .error e => ⟨none, .returned (some (.findLedger e)), 0, []⟩
  | .ok ledgerAPI =>
    let r1 := LoadAppName newApp ledgerAPI spare
    match r1.ending with
    | .panicked => ⟨none, .panicked, 0, r1.sent⟩
    | .returned (some err) =>
      if errorIs err "[APDU_CODE_CLA_NOT_SUPPORTED] Class not supported" then
        ⟨none, .returned (some (.errorf "are you sure the Gitopia or Cosmos app is open?")), 1,
          r1.sent⟩
      else
        ⟨none, .returned (some err), 1, r1.sent⟩
    | .returned none =>
      let r2 := LoadVersion r1.ledger (fun h m => ledgerAPI (r1.sent ++ h) m)
      match r2.ending with
      | .panicked => ⟨none, .panicked, 0, r1.sent ++ r2.sent⟩
      | .returned (some err) =>
        if errorIs err "[APDU_CODE_CLA_NOT_SUPPORTED] Class not supported" then
          ⟨none, .returned (some (.errorf "are you sure the Gitopia or Cosmos app is open?")), 1,
            r1.sent ++ r2.sent⟩
        else
          ⟨none, .returned (some err), 1, r1.sent ++ r2.sent⟩
      | .returned none =>
        match (CheckVersion r2.ledger).2 with
        | some err => ⟨none, .returned (some err), 1, r1.sent ++ r2.sent⟩
        | none => ⟨some (CheckVersion r2.ledger).1, .returned none, 0, r1.sent ++ r2.sent⟩

/-! ## Calls on an initialised client -/

/-- One call of a method of the client other than `LoadAppName` and
`LoadVersion`, with its arguments (`fuel` bounds the loop of `sign`). -/
inductive Call where
  | SignSECP256K1 (fuel : Nat) (bip32Path : List Nat) (transaction : List Nat)
  | GetPublicKeySECP256K1 (bip32Path : List Nat)
  | GetAddressPubKeySECP256K1 (bip32Path : List Nat) (hrp : List Nat)
  | GetBip32bytes (bip32Path : List Nat) (hardenCount : Nat)
  | CheckVersion
  deriving DecidableEq, Repr

/-- The session as one call leaves it.  `GetBip32bytes` reads `ledger.appName`
and has no assignment in its body, so its state-passing form hands the session
back next to its result. -/
def afterCall (pf : Platform) (api : Exchange) (ledger : LedgerCosmos) : Call → LedgerCosmos
  | .SignSECP256K1 fuel bip32Path transaction =>
    (SignSECP256K1 pf ledger api fuel bip32Path transaction).1
  | .GetPublicKeySECP256K1 bip32Path => (GetPublicKeySECP256K1 pf ledger api bip32Path).1
  | .GetAddressPubKeySECP256K1 bip32Path hrp =>
    (GetAddressPubKeySECP256K1 pf ledger api bip32Path hrp).1
  | .GetBip32bytes bip32Path hardenCount =>
    (ledger, GetBip32bytes pf ledger bip32Path hardenCount).1
  | .CheckVersion => (CheckVersion ledger).1

/-! ## Reference packet sequence of the specification (section 4.4) -/

/-- Integer ceiling of `n / 250`. -/
def chunkCount (n : Nat) : Nat := (n + 249) / 250

/-- Packet 1 as the specification words it: header with `p1 = 0` and the path
length, then the encoded path. -/
def primingPacket (pathBytes : List Nat) : Packet :=
  [0x55, 0x02, 0, 0, pathBytes.length] ++ pathBytes

/-- The `n` data packets of the specification for the unsent bytes `tx`: middle
packets carry 250 bytes under `p1 = 1`, the last one carries what remains under
`p1 = 2`. -/
def dataPackets : Nat → List Nat → List Packet
  | 0, _ => []
  | 1, tx => [[0x55, 0x02, 2, 0, tx.length] ++ tx]
  | n + 2, tx => ([0x55, 0x02, 1, 0, 250] ++ tx.take 250) :: dataPackets (n + 1) (tx.drop 250)

/-- Reply of the most recent exchange of a history of requests. -/
def lastReply (api : Exchange) (sent : List Packet) : Option Reply :=
  sent.getLast?.map (api sent.dropLast)

/-- Response bytes of the most recent exchange (`[]` before any exchange). -/
def lastResponse (api : Exchange) (sent : List Packet) : List Nat :=
  match lastReply api sent with
  | some r => r.response
  | none => []

/-- Payload of a packet: the bytes after the 5-byte header. -/
def payload (p : Packet) : List Nat := p.drop 5

/-- Concatenation, in send order, of the payloads of all packets after the first. -/
def dataBytes (sent : List Packet) : List Nat := (sent.tail.map payload).flatten

/-! ## Vocabulary of the claims about address derivation -/

/-- The two errors of the HRP validation (lines 249-258). -/
def isHRPError (e : Option Error) : Prop :=
  e = some (.errorf "hrp len should be <10")
  ∨ e = some (.errorf "all characters in the HRP must be in the [33, 126] range")

/-- The HRP is too long or holds a byte outside `[33, 126]`. -/
def badHRP (hrp : List Nat) : Prop :=
  hrp.length > 83 ∨ ∃ b ∈ hrp, b < 33 ∨ 126 < b

/-! ## Fixtures for concrete runs -/

/-- A path encoder that returns twenty zero bytes for every path. -/
def zeroPathPlatform : Platform :=
  { GetBip32bytesv2 := fun _ _ => .ok (List.replicate 20 0)
    byteOfLargeFloat := fun c => c }

/-- A session whose device reported the name `"Gitopia"`. -/
def gitopiaSession : LedgerCosmos :=
  { appName := gitopiaAppName, version := ⟨0, 0, 0, 0⟩ }

/-- A session whose device reported the name `"Cosmos"`. -/
def cosmosSession : LedgerCosmos :=
  { appName := [67, 111, 115, 109, 111, 115], version := ⟨0, 0, 0, 0⟩ }

/-- A transport whose every exchange succeeds and answers with the number of
earlier requests. -/
def countingApi : Exchange := fun h _ => ⟨[h.length], none⟩

/-- A transport whose second exchange fails and whose other exchanges succeed. -/
def failSecondApi : Exchange :=
  fun h _ => if h.length = 1 then ⟨[], some "transport down"⟩ else ⟨[h.length], none⟩

/-- A transport that answers every request with 33 key bytes followed by the
text `cosmos1abc`. -/
def cosmosAddressApi : Exchange :=
  fun _ _ => ⟨List.replicate 33 2 ++ strBytes "cosmos1abc", none⟩

/-- A transport that answers every request with the empty response. -/
def emptyReplyApi : Exchange := fun _ _ => ⟨[], none⟩

/-- A transport that answers every request with `response`. -/
def constApi (response : List Nat) : Exchange := fun _ _ => ⟨response, none⟩

/-- A transport whose every exchange fails with the bad-key-handle error and the
payload `%d`. -/
def badKeyHandleApi : Exchange :=
  fun _ _ => ⟨[37, 100],
    some "[APDU_CODE_BAD_KEY_HANDLE] The parameters in the data field are incorrect"⟩

/-- A device running the Gitopia app, version 2.35.0: it answers the first
request with the app name and the later ones with the version. -/
def gitopiaDevice : Exchange :=
  fun h _ => if h.length = 0 then ⟨[1, 7] ++ gitopiaAppName, none⟩ else ⟨[0, 2, 35, 0], none⟩

/-- A device that answers the app-name request but fails the version request. -/
def noVersionDevice : Exchange :=
  fun h _ => if h.length = 0 then ⟨[1, 7] ++ gitopiaAppName, none⟩
    else ⟨[], some "[APDU_CODE_CLA_NOT_SUPPORTED] Class not supported"⟩

/-- A transport whose first 256 exchanges succeed and whose 257th fails. -/
def failAfterWrapApi : Exchange :=
  fun h _ => if h.length = 256 then ⟨[], some "transport down"⟩ else ⟨[h.length], none⟩

/-! ## One iteration of the packet loop -/

theorem signLoop_exit (pf : Platform) (ledger : LedgerCosmos) (api : Exchange)
    (path : List Nat) (fuel : Nat) (s : SignState) (h : ¬ s.packetIndex ≤ s.packetCount) :
    signLoop pf ledger api path (fuel + 1) s = ⟨some (s.finalResponse, none), s.sent⟩ := by
  simp [signLoop, h]

theorem signLoop_step_ok (pf : Platform) (ledger : LedgerCosmos) (api : Exchange)
    (path : List Nat) (fuel : Nat) (s : SignState) (chunk : Nat) (m : Packet)
    (h : s.packetIndex ≤ s.packetCount)
    (hm : signMessage pf ledger path s = .ok (chunk, m))
    (hr : (api s.sent m).err = none) :
    signLoop pf ledger api path (fuel + 1) s =
      signLoop pf ledger api path fuel
        { packetIndex := (s.packetIndex + 1) % 256
          packetCount := s.packetCount
          transaction := if s.packetIndex > 1 then s.transaction.drop chunk else s.transaction
          finalResponse := (api s.sent m).response
          sent := s.sent ++ [m] } := by
  simp [signLoop, h, hm, hr]

theorem signLoop_step_fail (pf : Platform) (ledger : LedgerCosmos) (api : Exchange)
    (path : List Nat) (fuel : Nat) (s : SignState) (chunk : Nat) (m : Packet) (e : String)
    (h : s.packetIndex ≤ s.packetCount)
    (hm : signMessage pf ledger path s = .ok (chunk, m))
    (hr : (api s.sent m).err = some e) :
    signLoop pf ledger api path (fuel + 1) s =
      ⟨some ([], some (signError e (api s.sent m).response)), s.sent ++ [m]⟩ := by
  simp [signLoop, h, hm, hr]

theorem signMessage_first (pf : Platform) (ledger : LedgerCosmos) (path pb : List Nat)
    (s : SignState) (hname : ledger.appName = gitopiaAppName)
    (henc : pf.GetBip32bytesv2 path 3 = .ok pb) (h1 : s.packetIndex = 1) :
    signMessage pf ledger path s = .ok (250, [0x55, 0x02, 0, 0, pb.length % 256] ++ pb) := by
  simp [signMessage, GetBip32bytes, hname, henc, h1, userMessageChunkSize, userCLA,
    userINSSignSECP256K1]

theorem signMessage_data (pf : Platform) (ledger : LedgerCosmos) (path : List Nat)
    (s : SignState) (h1 : s.packetIndex ≠ 1) :
    signMessage pf ledger path s =
      .ok (min s.transaction.length 250,
           [0x55, 0x02, if s.packetIndex = s.packetCount then 2 else 1, 0,
             min s.transaction.length 250] ++ s.transaction.take (min s.transaction.length 250)) := by
  have hmin : (if s.transaction.length < 250 then s.transaction.length else 250)
      = min s.transaction.length 250 := by
    split <;> omega
  have hmod : min s.transaction.length 250 % 256 = min s.transaction.length 250 := by
    apply Nat.mod_eq_of_lt; omega
  simp only [signMessage, h1, if_false, userMessageChunkSize, userCLA, userINSSignSECP256K1, hmin,
    hmod]

/-- Some message is built in every iteration once the path can be encoded. -/
theorem signMessage_ok (pf : Platform) (ledger : LedgerCosmos) (path pb : List Nat)
    (s : SignState) (hname : ledger.appName = gitopiaAppName)
    (henc : pf.GetBip32bytesv2 path 3 = .ok pb) :
    ∃ chunk m, signMessage pf ledger path s = .ok (chunk, m) := by
  by_cases h1 : s.packetIndex = 1
  · exact ⟨_, _, signMessage_first pf ledger path pb s hname henc h1⟩
  · exact ⟨_, _, signMessage_data pf ledger path s h1⟩

/-! ## The data packets of a run whose exchanges succeed -/

theorem chunkCount_eq_zero {n : Nat} (h : chunkCount n = 0) : n = 0 := by
  unfold chunkCount at h
  omega

theorem chunkCount_eq_one {n : Nat} (h : chunkCount n = 1) : 1 ≤ n ∧ n ≤ 250 := by
  unfold chunkCount at h
  omega

theorem chunkCount_sub {n k : Nat} (h : chunkCount n = k + 2) :
    250 < n ∧ chunkCount (n - 250) = k + 1 := by
  unfold chunkCount at h ⊢
  omega

/-- From packet index `idx ≥ 2` with `n` chunks left and `idx + n - 1 = packetCount`,
`n` iterations send exactly `dataPackets n tx` and leave the loop at the wrapped
index `(packetCount + 1) % 256` with nothing left to send. -/
theorem signLoop_data_phase (pf : Platform) (ledger : LedgerCosmos) (api : Exchange)
    (path : List Nat) (hok : ∀ h m, (api h m).err = none) :
    ∀ (n : Nat) (tx : List Nat) (idx cnt : Nat) (fin : List Nat) (sent : List Packet)
      (fuel : Nat),
      chunkCount tx.length = n → 2 ≤ idx → idx ≤ 255 → idx + n = cnt + 1 → cnt ≤ 255 →
      ∃ fin', signLoop pf ledger api path (n + fuel) ⟨idx, cnt, tx, fin, sent⟩ =
        signLoop pf ledger api path fuel
          ⟨(cnt + 1) % 256, cnt, [], fin', sent ++ dataPackets n tx⟩ := by
  intro n
  induction n with
  | zero =>
    intro tx idx cnt fin sent fuel hn h2 h255 hsum _
    have hlen := chunkCount_eq_zero hn
    have htx : tx = [] := List.length_eq_zero.mp hlen
    have hidx : (cnt + 1) % 256 = idx := by
      rw [← hsum]; exact Nat.mod_eq_of_lt (by omega)
    refine ⟨fin, ?_⟩
    simp [htx, hidx, dataPackets]
  | succ k ih =>
    intro tx idx cnt fin sent fuel hn h2 h255 hsum hcnt
    have hfuel : k + 1 + fuel = (k + fuel) + 1 := by omega
    have hle : idx ≤ cnt := by omega
    have hne1 : idx ≠ 1 := by omega
    have hmsg := signMessage_data pf ledger path ⟨idx, cnt, tx, fin, sent⟩ hne1
    have hstep := signLoop_step_ok pf ledger api path (k + fuel) ⟨idx, cnt, tx, fin, sent⟩ _ _
      hle hmsg (hok _ _)
    rw [hfuel, hstep]
    have hgt : idx > 1 := by omega
    simp only [hgt, if_true]
    cases k with
    | zero =>
      have hb := chunkCount_eq_one hn
      have hmin : min tx.length 250 = tx.length := by omega
      have heq : idx = cnt := by omega
      refine ⟨(api sent ([0x55, 0x02, 2, 0, tx.length] ++ tx)).response, ?_⟩
      simp [hmin, heq, dataPackets]
    | succ j =>
      have hb := chunkCount_sub hn
      have hmin : min tx.length 250 = 250 := by omega
      have hlt : idx ≠ cnt := by omega
      have hmod : (idx + 1) % 256 = idx + 1 := Nat.mod_eq_of_lt (by omega)
      have hdrop : chunkCount (tx.drop 250).length = j + 1 := by
        rw [List.length_drop]; exact hb.2
      obtain ⟨fin', hih⟩ := ih (tx.drop 250) (idx + 1) cnt
        (api sent ([0x55, 0x02, 1, 0, 250] ++ tx.take 250)).response
        (sent ++ [[0x55, 0x02, 1, 0, 250] ++ tx.take 250]) fuel hdrop (by omega) (by omega)
        (by omega) hcnt
      refine ⟨fin', ?_⟩
      simp only [hmin, hlt, if_false, hmod]
      rw [hih]
      simp [dataPackets]

/-! ## The returned bytes are the response of the most recent exchange -/

theorem lastResponse_concat (api : Exchange) (sent : List Packet) (m : Packet) :
    lastResponse api (sent ++ [m]) = (api sent m).response := by
  simp [lastResponse, lastReply]

theorem lastReply_concat (api : Exchange) (sent : List Packet) (m : Packet) :
    lastReply api (sent ++ [m]) = some (api sent m) := by
  simp [lastReply]

/-- Loop invariant: `finalResponse` is the response of the most recent exchange,
so a run that returns without error returns that response. -/
theorem signLoop_result_last (pf : Platform) (ledger : LedgerCosmos) (api : Exchange)
    (path : List Nat) :
    ∀ (fuel : Nat) (s : SignState) (sig : List Nat),
      s.finalResponse = lastResponse api s.sent →
      (signLoop pf ledger api path fuel s).result = some (sig, none) →
      sig = lastResponse api (signLoop pf ledger api path fuel s).sent := by
  intro fuel
  induction fuel with
  | zero =>
    intro s sig _ hres
    simp [signLoop] at hres
  | succ f ih =>
    intro s sig hinv hres
    by_cases hle : s.packetIndex ≤ s.packetCount
    · cases hm : signMessage pf ledger path s with
      | error e =>
        simp [signLoop, hle, hm] at hres
      | ok cm =>
        obtain ⟨chunk, m⟩ := cm
        cases hr : (api s.sent m).err with
        | some e =>
          rw [signLoop_step_fail pf ledger api path f s chunk m e hle hm hr] at hres
          simp at hres
        | none =>
          rw [signLoop_step_ok pf ledger api path f s chunk m hle hm hr] at hres ⊢
          exact ih _ sig (by simp [lastResponse_concat]) hres
    · rw [signLoop_exit pf ledger api path f s hle] at hres ⊢
      simp at hres
      simp [← hres, hinv]

/-! ## Runs within the range of the 8-bit packet counter -/

theorem packetCount_in_range (pf : Platform) (tx : List Nat) (hlen : tx.length ≤ 63250) :
    packetCount pf tx = 1 + chunkCount tx.length := by
  have hc : chunkCount tx.length ≤ 253 := by
    unfold chunkCount; omega
  have hb : byteOfCeil pf tx.length = chunkCount tx.length := by
    unfold chunkCount at hc
    simp only [byteOfCeil, chunkCount, userMessageChunkSize]
    rw [if_pos (by omega)]
  rw [packetCount, hb]
  exact Nat.mod_eq_of_lt (by omega)

/-- For a transaction of at most 63250 bytes and a transport that never fails,
`sign` returns after `1 + ceil(L/250)` exchanges: it has sent the path packet and
then the data packets of the specification, and it hands back the response of the
last exchange. -/
theorem sign_in_range (pf : Platform) (ledger : LedgerCosmos) (api : Exchange)
    (path pb tx : List Nat) (fuel : Nat)
    (hname : ledger.appName = gitopiaAppName)
    (henc : pf.GetBip32bytesv2 path 3 = .ok pb)
    (hok : ∀ h m, (api h m).err = none)
    (hlen : tx.length ≤ 63250)
    (hfuel : chunkCount tx.length + 2 ≤ fuel) :
    (sign pf ledger api fuel path tx).sent
        = ([0x55, 0x02, 0, 0, pb.length % 256] ++ pb) :: dataPackets (chunkCount tx.length) tx
    ∧ (sign pf ledger api fuel path tx).result
        = some (lastResponse api (sign pf ledger api fuel path tx).sent, none) := by
  have hcnt := packetCount_in_range pf tx hlen
  have hc : chunkCount tx.length ≤ 253 := by
    unfold chunkCount; omega
  obtain ⟨g, rfl⟩ : ∃ g, fuel = (chunkCount tx.length + (g + 1)) + 1 :=
    ⟨fuel - (chunkCount tx.length + 2), by omega⟩
  have h1 := signMessage_first pf ledger path pb
    ⟨1, packetCount pf tx, tx, [], []⟩ hname henc rfl
  have hstep := signLoop_step_ok pf ledger api path (chunkCount tx.length + (g + 1))
    ⟨1, packetCount pf tx, tx, [], []⟩ _ _ (by simp [hcnt]) h1 (hok _ _)
  obtain ⟨fin', hphase⟩ := signLoop_data_phase pf ledger api path hok (chunkCount tx.length) tx 2
    (packetCount pf tx) (api [] ([0x55, 0x02, 0, 0, pb.length % 256] ++ pb)).response
    [[0x55, 0x02, 0, 0, pb.length % 256] ++ pb] (g + 1) rfl (by omega) (by omega)
    (by omega) (by omega)
  have hexit := signLoop_exit pf ledger api path g
    ⟨(packetCount pf tx + 1) % 256, packetCount pf tx, [], fin',
      [[0x55, 0x02, 0, 0, pb.length % 256] ++ pb] ++ dataPackets (chunkCount tx.length) tx⟩
    (by
      have hm : (packetCount pf tx + 1) % 256 = packetCount pf tx + 1 :=
        Nat.mod_eq_of_lt (by omega)
      simp [hm])
  have hrun : sign pf ledger api (chunkCount tx.length + (g + 1) + 1) path tx
      = ⟨some (fin', none),
          ([0x55, 0x02, 0, 0, pb.length % 256] ++ pb) :: dataPackets (chunkCount tx.length) tx⟩ := by
    unfold sign
    rw [hstep]
    simp only [Nat.lt_irrefl, gt_iff_lt, if_false, List.nil_append]
    have h2 : (1 + 1) % 256 = 2 := by norm_num
    rw [h2, hphase, hexit]
    simp
  have hlast := signLoop_result_last pf ledger api path (chunkCount tx.length + (g + 1) + 1)
    ⟨1, packetCount pf tx, tx, [], []⟩ fin' (by simp [lastResponse, lastReply])
    (by
      have := congrArg SignRun.result hrun
      simpa [sign] using this)
  refine ⟨by rw [hrun], ?_⟩
  have hs : (signLoop pf ledger api path (chunkCount tx.length + (g + 1) + 1)
      ⟨1, packetCount pf tx, tx, [], []⟩) = sign pf ledger api (chunkCount tx.length + (g + 1) + 1)
        path tx := rfl
  rw [hs] at hlast
  rw [← hlast, hrun]

/-! ## Facts about the reference data packets -/

theorem dataPackets_length : ∀ (n : Nat) (tx : List Nat), (dataPackets n tx).length = n := by
  intro n
  induction n with
  | zero => intro tx; rfl
  | succ k ih =>
    intro tx
    cases k with
    | zero => rfl
    | succ j => simp [dataPackets, ih]

theorem dataPackets_payload :
    ∀ (n : Nat) (tx : List Nat), chunkCount tx.length = n →
      ((dataPackets n tx).map payload).flatten = tx := by
  intro n
  induction n with
  | zero =>
    intro tx hn
    have htx : tx = [] := List.length_eq_zero.mp (chunkCount_eq_zero hn)
    simp [dataPackets, htx]
  | succ k ih =>
    intro tx hn
    cases k with
    | zero => simp [dataPackets, payload]
    | succ j =>
      have hb := chunkCount_sub hn
      have hdrop : chunkCount (tx.drop 250).length = j + 1 := by
        rw [List.length_drop]; exact hb.2
      have := ih (tx.drop 250) hdrop
      simp only [dataPackets, List.map_cons, List.flatten_cons, this]
      simp [payload]

theorem dataPackets_getLast :
    ∀ (n : Nat) (tx : List Nat), chunkCount tx.length = n + 1 →
      ∃ rest, (dataPackets (n + 1) tx).getLast? = some ([0x55, 0x02, 2, 0, rest.length] ++ rest)
        ∧ 1 ≤ rest.length ∧ rest.length ≤ 250 ∧ rest = tx.drop (250 * n) := by
  intro n
  induction n with
  | zero =>
    intro tx hn
    have hb := chunkCount_eq_one hn
    exact ⟨tx, by simp [dataPackets], hb.1, hb.2, by simp⟩
  | succ k ih =>
    intro tx hn
    have hb := chunkCount_sub hn
    have hdrop : chunkCount (tx.drop 250).length = k + 1 := by
      rw [List.length_drop]; exact hb.2
    obtain ⟨rest, hlast, h1, h2, hrest⟩ := ih (tx.drop 250) hdrop
    refine ⟨rest, ?_, h1, h2, ?_⟩
    · simp only [dataPackets]
      rw [List.getLast?_cons, hlast]
      rfl
    · rw [hrest, List.drop_drop]
      congr 1
      omega

/-! ## Transactions beyond the range of the 8-bit packet counter -/

theorem packetCount_wraps_to_zero (pf : Platform) (tx : List Nat)
    (h1 : 63501 ≤ tx.length) (h2 : tx.length ≤ 63750) : packetCount pf tx = 0 := by
  have hb : byteOfCeil pf tx.length = 255 := by
    simp only [byteOfCeil, userMessageChunkSize]
    rw [if_pos (by omega)]
    omega
  rw [packetCount, hb]

theorem packetCount_eq_255 (pf : Platform) (tx : List Nat)
    (h1 : 63251 ≤ tx.length) (h2 : tx.length ≤ 63500) : packetCount pf tx = 255 := by
  have hb : byteOfCeil pf tx.length = 254 := by
    simp only [byteOfCeil, userMessageChunkSize]
    rw [if_pos (by omega)]
    omega
  rw [packetCount, hb]

/-- With `packetCount = 0` the loop condition `1 <= 0` fails at once: `sign`
returns `(nil, nil)` and no request reaches the transport. -/
theorem sign_of_packetCount_zero (pf : Platform) (ledger : LedgerCosmos) (api : Exchange)
    (path tx : List Nat) (fuel : Nat) (h : packetCount pf tx = 0) :
    sign pf ledger api (fuel + 1) path tx = ⟨some ([], none), []⟩ := by
  unfold sign
  rw [signLoop_exit _ _ _ _ _ _ (by simp [h])]

/-- With `packetCount = 255` the index wraps from 255 to 0 after the last data
packet: the loop goes on, sends an empty packet under `p1 = 1` and is back at
index 1. -/
theorem sign_wraps (pf : Platform) (ledger : LedgerCosmos) (api : Exchange)
    (path pb tx : List Nat) (g : Nat)
    (hname : ledger.appName = gitopiaAppName)
    (henc : pf.GetBip32bytesv2 path 3 = .ok pb)
    (hok : ∀ h m, (api h m).err = none)
    (h1 : 63251 ≤ tx.length) (h2 : tx.length ≤ 63500) :
    ∃ fin', sign pf ledger api (256 + g) path tx =
      signLoop pf ledger api path g
        ⟨1, 255, [], fin',
          (([0x55, 0x02, 0, 0, pb.length % 256] ++ pb) :: dataPackets 254 tx)
            ++ [[0x55, 0x02, 1, 0, 0]]⟩ := by
  have hcnt := packetCount_eq_255 pf tx h1 h2
  have hc : chunkCount tx.length = 254 := by
    unfold chunkCount; omega
  have hfuel : 256 + g = (254 + (g + 1)) + 1 := by omega
  have hm1 := signMessage_first pf ledger path pb ⟨1, 255, tx, [], []⟩ hname henc rfl
  have hstep := signLoop_step_ok pf ledger api path (254 + (g + 1))
    ⟨1, 255, tx, [], []⟩ _ _ (by simp) hm1 (hok _ _)
  obtain ⟨fin', hphase⟩ := signLoop_data_phase pf ledger api path hok 254 tx 2 255
    (api [] ([0x55, 0x02, 0, 0, pb.length % 256] ++ pb)).response
    [[0x55, 0x02, 0, 0, pb.length % 256] ++ pb] (g + 1) hc (by omega) (by omega)
    (by omega) (by omega)
  have hm0 := signMessage_data pf ledger path
    ⟨0, 255, [], fin', [[0x55, 0x02, 0, 0, pb.length % 256] ++ pb] ++ dataPackets 254 tx⟩
    (by simp)
  have hstep0 := signLoop_step_ok pf ledger api path g
    ⟨0, 255, [], fin', [[0x55, 0x02, 0, 0, pb.length % 256] ++ pb] ++ dataPackets 254 tx⟩ _ _
    (by simp) hm0 (hok _ _)
  refine ⟨(api ([[0x55, 0x02, 0, 0, pb.length % 256] ++ pb] ++ dataPackets 254 tx)
      [0x55, 0x02, 1, 0, 0]).response, ?_⟩
  unfold sign
  rw [hcnt, hfuel, hstep]
  simp only [Nat.lt_irrefl, gt_iff_lt, if_false, List.nil_append]
  have h2m : (1 + 1) % 256 = 2 := by norm_num
  have h0m : (255 + 1) % 256 = 0 := by norm_num
  rw [h2m, hphase, h0m, hstep0]
  simp

/-- With `packetCount = 255` every value of the 8-bit index satisfies the loop
condition: while the exchanges succeed the loop never returns, and each unit of
fuel is one more exchange. -/
theorem signLoop_runs_on (pf : Platform) (ledger : LedgerCosmos) (api : Exchange)
    (path pb : List Nat)
    (hname : ledger.appName = gitopiaAppName)
    (henc : pf.GetBip32bytesv2 path 3 = .ok pb)
    (hok : ∀ h m, (api h m).err = none) :
    ∀ (fuel : Nat) (s : SignState), s.packetCount = 255 → s.packetIndex ≤ 255 →
      (signLoop pf ledger api path fuel s).result = none
      ∧ (signLoop pf ledger api path fuel s).sent.length = s.sent.length + fuel := by
  intro fuel
  induction fuel with
  | zero =>
    intro s _ _
    exact ⟨rfl, rfl⟩
  | succ f ih =>
    intro s hcnt hidx
    obtain ⟨chunk, m, hm⟩ := signMessage_ok pf ledger path pb s hname henc
    rw [signLoop_step_ok pf ledger api path f s chunk m (by omega) hm (hok _ _)]
    obtain ⟨h1, h2⟩ := ih
      { packetIndex := (s.packetIndex + 1) % 256
        packetCount := s.packetCount
        transaction := if s.packetIndex > 1 then s.transaction.drop chunk else s.transaction
        finalResponse := (api s.sent m).response
        sent := s.sent ++ [m] } hcnt (by simp only; omega)
    refine ⟨h1, ?_⟩
    rw [h2]
    simp only [List.length_append, List.length_singleton]
    omega

/-- For 63251 to 63500 bytes, on a transport that never fails, `sign` does not
return, whatever the number of iterations. -/
theorem sign_never_returns (pf : Platform) (ledger : LedgerCosmos) (api : Exchange)
    (path pb tx : List Nat) (fuel : Nat)
    (hname : ledger.appName = gitopiaAppName)
    (henc : pf.GetBip32bytesv2 path 3 = .ok pb)
    (hok : ∀ h m, (api h m).err = none)
    (h1 : 63251 ≤ tx.length) (h2 : tx.length ≤ 63500) :
    (sign pf ledger api fuel path tx).result = none
    ∧ (sign pf ledger api fuel path tx).sent.length = fuel := by
  have h := signLoop_runs_on pf ledger api path pb hname henc hok fuel
    ⟨1, packetCount pf tx, tx, [], []⟩ (packetCount_eq_255 pf tx h1 h2) (by simp only; omega)
  simpa [sign] using h

/-! ## Claims about `sign` -/

/-- C1 (defect of the 8-bit packet counter): for a transaction of 63750 bytes the
specification asks for `1 + ceil(63750/250) = 256` exchanges, but `packetCount`
is `1 + byte(255)`, which wraps to 0, so `sign` performs no exchange and returns
`(nil, nil)`. -/
theorem sign_63750_bytes_no_exchange (pf : Platform) (ledger : LedgerCosmos) (api : Exchange)
    (path : List Nat) (fuel : Nat) :
    1 + chunkCount (List.replicate 63750 0).length = 256
    ∧ (sign pf ledger api (fuel + 1) path (List.replicate 63750 0)).sent.length = 0
    ∧ (sign pf ledger api (fuel + 1) path (List.replicate 63750 0)).result
        = some ([], none) := by
  have hl : (List.replicate 63750 0).length = 63750 := List.length_replicate _ _
  generalize List.replicate 63750 0 = tx at hl ⊢
  rw [sign_of_packetCount_zero pf ledger api path tx fuel
    (packetCount_wraps_to_zero pf tx (by omega) (by omega)), hl]
  exact ⟨by decide, rfl, rfl⟩

/-- C2 (defect of the 8-bit packet counter): for a transaction of 63750 bytes
`sign` sends no packet at all, so the payloads of the packets after the first
concatenate to the empty sequence and not to the transaction. -/
theorem sign_63750_bytes_payload_lost (pf : Platform) (ledger : LedgerCosmos)
    (api : Exchange) (path : List Nat) (fuel : Nat) :
    dataBytes (sign pf ledger api (fuel + 1) path (List.replicate 63750 0)).sent = []
    ∧ dataBytes (sign pf ledger api (fuel + 1) path (List.replicate 63750 0)).sent
        ≠ List.replicate 63750 0 := by
  have hl : (List.replicate 63750 0).length = 63750 := List.length_replicate _ _
  generalize List.replicate 63750 0 = tx at hl ⊢
  rw [sign_of_packetCount_zero pf ledger api path tx fuel
    (packetCount_wraps_to_zero pf tx (by omega) (by omega))]
  refine ⟨rfl, ?_⟩
  intro hc
  have hlen := congrArg List.length hc
  rw [hl] at hlen
  simp [dataBytes] at hlen

/-- Within the counter's range the payloads of the packets after the first
concatenate to the transaction. -/
theorem sign_dataBytes_in_range (pf : Platform) (ledger : LedgerCosmos) (api : Exchange)
    (path pb tx : List Nat) (fuel : Nat)
    (hname : ledger.appName = gitopiaAppName)
    (henc : pf.GetBip32bytesv2 path 3 = .ok pb)
    (hok : ∀ h m, (api h m).err = none)
    (hlen : tx.length ≤ 63250)
    (hfuel : chunkCount tx.length + 2 ≤ fuel) :
    dataBytes (sign pf ledger api fuel path tx).sent = tx := by
  rw [(sign_in_range pf ledger api path pb tx fuel hname henc hok hlen hfuel).1]
  simp only [dataBytes, List.tail_cons]
  exact dataPackets_payload _ tx rfl

/-- C3 (counterexample): for the empty transaction, on a session named
`"Gitopia"` and a transport that never fails, `sign` returns after one exchange
and the last (and only) packet it sent is the path packet, whose `p1` byte is 0,
not the last-chunk marker 2. -/
theorem sign_empty_transaction_last_packet :
    gitopiaSession.appName = gitopiaAppName
    ∧ (∀ h m, (countingApi h m).err = none)
    ∧ (sign zeroPathPlatform gitopiaSession countingApi 2 [44, 118, 0, 0, 0] []).result
        = some ([0], none)
    ∧ (sign zeroPathPlatform gitopiaSession countingApi 2 [44, 118, 0, 0, 0] []).sent
        = [[0x55, 0x02, 0, 0, 20] ++ List.replicate 20 0]
    ∧ (sign zeroPathPlatform gitopiaSession countingApi 2 [44, 118, 0, 0, 0] []).sent.getLast?.bind
        (fun p => p[2]?) = some 0 := by
  refine ⟨rfl, fun _ _ => rfl, ?_, ?_, ?_⟩ <;> decide

/-- C3 (amended): on a session named `"Gitopia"`, with an encodable path and a
transport that never fails, `sign` on a transaction of `L ≤ 63250` bytes returns
after `1 + ceil(L/250)` exchanges; when `L ≥ 1` the last packet it sent is
`[0x55, 0x02, 2, 0, n]` followed by the `n` last transaction bytes (the last-chunk
marker), and when `L = 0` the only packet sent is the path packet with `p1 = 0`. -/
theorem sign_last_packet_marker (pf : Platform) (ledger : LedgerCosmos) (api : Exchange)
    (path pb tx : List Nat) (fuel : Nat)
    (hname : ledger.appName = gitopiaAppName)
    (henc : pf.GetBip32bytesv2 path 3 = .ok pb)
    (hok : ∀ h m, (api h m).err = none)
    (hlen : tx.length ≤ 63250)
    (hfuel : chunkCount tx.length + 2 ≤ fuel) :
    (∃ sig, (sign pf ledger api fuel path tx).result = some (sig, none))
    ∧ (sign pf ledger api fuel path tx).sent.length = 1 + chunkCount tx.length
    ∧ (tx ≠ [] → ∃ rest,
        (sign pf ledger api fuel path tx).sent.getLast?
          = some ([0x55, 0x02, 2, 0, rest.length] ++ rest)
        ∧ rest = tx.drop (250 * (chunkCount tx.length - 1)))
    ∧ (tx = [] →
        (sign pf ledger api fuel path tx).sent = [[0x55, 0x02, 0, 0, pb.length % 256] ++ pb]) := by
  obtain ⟨hsent, hres⟩ := sign_in_range pf ledger api path pb tx fuel hname henc hok hlen hfuel
  refine ⟨⟨_, hres⟩, ?_, ?_, ?_⟩
  · rw [hsent, List.length_cons, dataPackets_length]; omega
  · intro hne
    have hpos : 1 ≤ tx.length := by
      rcases tx with _ | ⟨a, t⟩
      · exact absurd rfl hne
      · simp
    obtain ⟨k, hk⟩ : ∃ k, chunkCount tx.length = k + 1 :=
      ⟨chunkCount tx.length - 1, by unfold chunkCount; omega⟩
    obtain ⟨rest, hlast, _, _, hrest⟩ := dataPackets_getLast k tx hk
    refine ⟨rest, ?_, ?_⟩
    · rw [hsent, hk, List.getLast?_cons, hlast]
      rfl
    · rw [hk, hrest]
      rfl
  · intro hnil
    subst hnil
    rw [hsent]
    rfl

/-- Witness for `sign_last_packet_marker`: a 3-byte transaction. -/
theorem sign_last_packet_marker_witness :
    (∃ sig, (sign zeroPathPlatform gitopiaSession countingApi 3 [44, 118, 0, 0, 0]
        [1, 2, 3]).result = some (sig, none))
    ∧ (sign zeroPathPlatform gitopiaSession countingApi 3 [44, 118, 0, 0, 0]
        [1, 2, 3]).sent.length = 2
    ∧ (sign zeroPathPlatform gitopiaSession countingApi 3 [44, 118, 0, 0, 0]
        [1, 2, 3]).sent.getLast? = some [0x55, 0x02, 2, 0, 3, 1, 2, 3] := by
  obtain ⟨h1, h2, h3, _⟩ :=
    sign_last_packet_marker zeroPathPlatform gitopiaSession countingApi [44, 118, 0, 0, 0]
      (List.replicate 20 0) [1, 2, 3] 3 rfl rfl (fun _ _ => rfl) (by decide) (by decide)
  obtain ⟨rest, hlast, hrest⟩ := h3 (by decide)
  refine ⟨h1, h2, ?_⟩
  rw [hlast, hrest]
  rfl

/-- Within the counter's range, and for an encoded path shorter than 256 bytes,
the packets sent are the path packet and the data packets of the specification. -/
theorem sign_sent_in_range (pf : Platform) (ledger : LedgerCosmos) (api : Exchange)
    (path pb tx : List Nat) (fuel : Nat)
    (hname : ledger.appName = gitopiaAppName)
    (henc : pf.GetBip32bytesv2 path 3 = .ok pb)
    (hpb : pb.length < 256)
    (hok : ∀ h m, (api h m).err = none)
    (hlen : tx.length ≤ 63250)
    (hfuel : chunkCount tx.length + 2 ≤ fuel) :
    (sign pf ledger api fuel path tx).sent
      = primingPacket pb :: dataPackets (chunkCount tx.length) tx := by
  rw [(sign_in_range pf ledger api path pb tx fuel hname henc hok hlen hfuel).1,
    Nat.mod_eq_of_lt hpb]
  rfl

/-- For 63251 to 63500 bytes the first 256 iterations send the path packet, the
254 data packets and then an empty more-data packet, without returning. -/
theorem sign_wrapped_packets (pf : Platform) (ledger : LedgerCosmos) (api : Exchange)
    (path pb tx : List Nat)
    (hname : ledger.appName = gitopiaAppName)
    (henc : pf.GetBip32bytesv2 path 3 = .ok pb)
    (hok : ∀ h m, (api h m).err = none)
    (h1 : 63251 ≤ tx.length) (h2 : tx.length ≤ 63500) :
    (sign pf ledger api 256 path tx).sent[255]? = some [0x55, 0x02, 1, 0, 0]
    ∧ (sign pf ledger api 256 path tx).sent[254]?
        = some ([0x55, 0x02, 2, 0, (tx.drop 63250).length] ++ tx.drop 63250)
    ∧ (sign pf ledger api 256 path tx).result = none := by
  obtain ⟨fin', hrun⟩ := sign_wraps pf ledger api path pb tx 0 hname henc hok h1 h2
  have hc : chunkCount tx.length = 253 + 1 := by
    unfold chunkCount; omega
  obtain ⟨rest, hlast, _, _, hrest⟩ := dataPackets_getLast 253 tx hc
  have h253 : 250 * 253 = 63250 := by norm_num
  rw [h253] at hrest
  subst hrest
  have hlen254 := dataPackets_length 254 tx
  have hlast' : (dataPackets 254 tx)[253]?
      = some ([0x55, 0x02, 2, 0, (tx.drop 63250).length] ++ tx.drop 63250) := by
    rw [← hlast, List.getLast?_eq_getElem?, hlen254]
  have hrun' : sign pf ledger api 256 path tx = sign pf ledger api (256 + 0) path tx := rfl
  have hzero : ∀ s : SignState, signLoop pf ledger api path 0 s = ⟨none, s.sent⟩ :=
    fun _ => rfl
  rw [hrun', hrun, hzero]
  have hlen255 : (([0x55, 0x02, 0, 0, pb.length % 256] ++ pb) :: dataPackets 254 tx).length
      = 255 := by
    rw [List.length_cons, hlen254]
  refine ⟨?_, ?_, rfl⟩
  · rw [List.getElem?_append_right (Nat.le_of_eq hlen255), hlen255]
    rfl
  · rw [List.getElem?_append_left (by rw [hlen255]; norm_num), List.getElem?_cons_succ]
    exact hlast'

/-- C4 (defect of the 8-bit packet counter): for a transaction of 63251 bytes
`packetCount` is 255; after packet 255 the index wraps to 0, the loop goes on and
the 256th request is `[0x55, 0x02, 1, 0, 0]`: a more-data packet with no payload,
sent after the packet marked as last, and the loop has still not returned. -/
theorem sign_63251_bytes_packet_256 :
    (sign zeroPathPlatform gitopiaSession countingApi 256 [44, 118, 0, 0, 0]
        (List.replicate 63251 0)).sent[255]? = some [0x55, 0x02, 1, 0, 0]
    ∧ (sign zeroPathPlatform gitopiaSession countingApi 256 [44, 118, 0, 0, 0]
        (List.replicate 63251 0)).sent[254]? = some [0x55, 0x02, 2, 0, 1, 0]
    ∧ (sign zeroPathPlatform gitopiaSession countingApi 256 [44, 118, 0, 0, 0]
        (List.replicate 63251 0)).result = none := by
  have hd : (List.replicate 63251 0).drop 63250 = [0] := by
    rw [List.drop_replicate]
    rfl
  have h := sign_wrapped_packets zeroPathPlatform gitopiaSession countingApi [44, 118, 0, 0, 0]
    (List.replicate 20 0) (List.replicate 63251 0) rfl rfl (fun _ _ => rfl)
    (Nat.le_of_eq (List.length_replicate _ _).symm)
    (le_of_eq_of_le (List.length_replicate _ _) (by norm_num))
  rw [hd] at h
  exact h

/-- C5 (counterexample): on a session named `"Cosmos"` every exchange of the
transport succeeds, yet `sign` returns the error "App version is not supported"
(without any exchange). -/
theorem sign_other_app_errors :
    (∀ h m, (countingApi h m).err = none)
    ∧ sign zeroPathPlatform cosmosSession countingApi 2 [44, 118, 0, 0, 0] [1, 2, 3]
        = ⟨some ([], some (.errorf "App version is not supported")), []⟩ := by
  refine ⟨fun _ _ => rfl, ?_⟩
  decide

/-- C5 (amended): on a session named `"Gitopia"`, with an encodable path, a
transaction of at most 63250 bytes and a transport whose every exchange succeeds,
`sign` returns without error, and the bytes it returns are the response of the
last exchange it performed; for the empty transaction that is the response to
the path packet. -/
theorem sign_returns_last_response (pf : Platform) (ledger : LedgerCosmos) (api : Exchange)
    (path pb tx : List Nat) (fuel : Nat)
    (hname : ledger.appName = gitopiaAppName)
    (henc : pf.GetBip32bytesv2 path 3 = .ok pb)
    (hok : ∀ h m, (api h m).err = none)
    (hlen : tx.length ≤ 63250)
    (hfuel : chunkCount tx.length + 2 ≤ fuel) :
    (∃ earlier last,
      (sign pf ledger api fuel path tx).sent = earlier ++ [last]
      ∧ (sign pf ledger api fuel path tx).result = some ((api earlier last).response, none))
    ∧ (tx = [] →
      (sign pf ledger api fuel path tx).result
        = some ((api [] ([0x55, 0x02, 0, 0, pb.length % 256] ++ pb)).response, none)) := by
  obtain ⟨hsent, hres⟩ := sign_in_range pf ledger api path pb tx fuel hname henc hok hlen hfuel
  constructor
  · have hne : (sign pf ledger api fuel path tx).sent ≠ [] := by
      rw [hsent]; exact List.cons_ne_nil _ _
    have hsplit := List.dropLast_concat_getLast hne
    refine ⟨_, _, hsplit.symm, ?_⟩
    rw [hres]
    conv_lhs => rw [← hsplit]
    rw [lastResponse_concat]
  · intro hnil
    subst hnil
    rw [hres, hsent]
    rfl

/-- Witness for `sign_returns_last_response`: a 3-byte transaction on a
transport that never fails. -/
theorem sign_returns_last_response_witness :
    ∃ earlier last,
      (sign zeroPathPlatform gitopiaSession countingApi 3 [44, 118, 0, 0, 0] [1, 2, 3]).sent
        = earlier ++ [last]
      ∧ (sign zeroPathPlatform gitopiaSession countingApi 3 [44, 118, 0, 0, 0] [1, 2, 3]).result
        = some ((countingApi earlier last).response, none) :=
  (sign_returns_last_response zeroPathPlatform gitopiaSession countingApi [44, 118, 0, 0, 0]
    (List.replicate 20 0) [1, 2, 3] 3 rfl rfl (fun _ _ => rfl) (by decide) (by decide)).1

/-! ## A failing exchange -/

/-- When the loop is `j` successful exchanges away from an exchange that fails,
and the index stays within `packetCount` until then, the run stops at that
exchange with the classified error and no signature bytes. -/
theorem signLoop_fails_at (pf : Platform) (ledger : LedgerCosmos) (api : Exchange)
    (path pb : List Nat)
    (hname : ledger.appName = gitopiaAppName)
    (henc : pf.GetBip32bytesv2 path 3 = .ok pb) :
    ∀ (j : Nat) (s : SignState) (fuel : Nat),
      s.packetIndex + j ≤ s.packetCount → s.packetCount ≤ 255 →
      (∀ h m, h.length < s.sent.length + j → (api h m).err = none) →
      (∀ h m, h.length = s.sent.length + j → (api h m).err ≠ none) →
      j + 1 ≤ fuel →
      ∃ earlier last e,
        (signLoop pf ledger api path fuel s).sent = earlier ++ [last]
        ∧ earlier.length = s.sent.length + j
        ∧ (api earlier last).err = some e
        ∧ (signLoop pf ledger api path fuel s).result
            = some ([], some (signError e (api earlier last).response)) := by
  intro j
  induction j with
  | zero =>
    intro s fuel hidx _ _ hfail hfuel
    obtain ⟨f, rfl⟩ : ∃ f, fuel = f + 1 := ⟨fuel - 1, by omega⟩
    obtain ⟨chunk, m, hm⟩ := signMessage_ok pf ledger path pb s hname henc
    cases hr : (api s.sent m).err with
    | none => exact absurd hr (hfail s.sent m rfl)
    | some e =>
      rw [signLoop_step_fail pf ledger api path f s chunk m e (by omega) hm hr]
      exact ⟨s.sent, m, e, rfl, rfl, hr, rfl⟩
  | succ i ih =>
    intro s fuel hidx hcnt hbefore hfail hfuel
    obtain ⟨f, rfl⟩ : ∃ f, fuel = f + 1 := ⟨fuel - 1, by omega⟩
    obtain ⟨chunk, m, hm⟩ := signMessage_ok pf ledger path pb s hname henc
    have hr : (api s.sent m).err = none := hbefore s.sent m (by omega)
    rw [signLoop_step_ok pf ledger api path f s chunk m (by omega) hm hr]
    have hmod : (s.packetIndex + 1) % 256 = s.packetIndex + 1 := Nat.mod_eq_of_lt (by omega)
    obtain ⟨earlier, last, e, h1, h2, h3, h4⟩ := ih
      { packetIndex := (s.packetIndex + 1) % 256
        packetCount := s.packetCount
        transaction := if s.packetIndex > 1 then s.transaction.drop chunk else s.transaction
        finalResponse := (api s.sent m).response
        sent := s.sent ++ [m] } f
      (by simp only [hmod]; omega) hcnt
      (by
        intro h m' hh
        apply hbefore
        simp only [List.length_append, List.length_singleton] at hh
        omega)
      (by
        intro h m' hh
        apply hfail
        simp only [List.length_append, List.length_singleton] at hh
        omega)
      (by omega)
    refine ⟨earlier, last, e, h1, ?_, h3, h4⟩
    simp only [List.length_append, List.length_singleton] at h2
    omega

theorem packetCount_le (pf : Platform) (tx : List Nat) : packetCount pf tx ≤ 255 := by
  unfold packetCount
  omega

/-- While the index has not gone past `packetCount`: on a session named
`"Gitopia"` with an encodable path, if the exchanges of packets `1 .. k-1`
succeed and the exchange of packet `k` fails (`1 ≤ k ≤ packetCount`), then `sign`
returns no signature bytes together with the error classified from that failing
exchange, and it has performed exactly `k` exchanges. -/
theorem sign_exchange_failure (pf : Platform) (ledger : LedgerCosmos) (api : Exchange)
    (path pb tx : List Nat) (k fuel : Nat)
    (hname : ledger.appName = gitopiaAppName)
    (henc : pf.GetBip32bytesv2 path 3 = .ok pb)
    (hk1 : 1 ≤ k) (hk : k ≤ packetCount pf tx)
    (hbefore : ∀ h m, h.length + 1 < k → (api h m).err = none)
    (hfail : ∀ h m, h.length + 1 = k → (api h m).err ≠ none)
    (hfuel : k ≤ fuel) :
    ∃ earlier last e,
      (sign pf ledger api fuel path tx).sent = earlier ++ [last]
      ∧ (sign pf ledger api fuel path tx).sent.length = k
      ∧ (api earlier last).err = some e
      ∧ (sign pf ledger api fuel path tx).result
          = some ([], some (signError e (api earlier last).response)) := by
  obtain ⟨j, rfl⟩ : ∃ j, k = j + 1 := ⟨k - 1, by omega⟩
  obtain ⟨earlier, last, e, h1, h2, h3, h4⟩ :=
    signLoop_fails_at pf ledger api path pb hname henc j
      ⟨1, packetCount pf tx, tx, [], []⟩ fuel (by simp only; omega) (packetCount_le pf tx)
      (by intro h m hh; apply hbefore; simp only [List.length_nil] at hh; omega)
      (by intro h m hh; apply hfail; simp only [List.length_nil] at hh; omega)
      hfuel
  refine ⟨earlier, last, e, h1, ?_, h3, h4⟩
  unfold sign
  rw [h1]
  simp only [List.length_nil] at h2
  simp [h2]

/-- Witness for `sign_exchange_failure`: the transport fails on the second
exchange, the one that carries the three transaction bytes, and `sign` stops there. -/
theorem sign_exchange_failure_witness :
    (sign zeroPathPlatform gitopiaSession failSecondApi 2 [44, 118, 0, 0, 0]
        [1, 2, 3]).sent.length = 2
    ∧ ∃ e, (sign zeroPathPlatform gitopiaSession failSecondApi 2 [44, 118, 0, 0, 0]
        [1, 2, 3]).result = some ([], some e) := by
  obtain ⟨earlier, last, e, _, h2, _, h4⟩ :=
    sign_exchange_failure zeroPathPlatform gitopiaSession failSecondApi [44, 118, 0, 0, 0]
      (List.replicate 20 0) [1, 2, 3] 2 2 rfl rfl (by decide) (by decide)
      (by
        intro h m hh
        have h0 : h.length = 0 := by omega
        simp [failSecondApi, h0])
      (by
        intro h m hh
        have h1 : h.length = 1 := by omega
        simp [failSecondApi, h1])
      (by decide)
  exact ⟨h2, _, h4⟩

/-! ## A failing exchange after the index has wrapped -/

/-- The data phase of the loop on a transport whose exchanges succeed as long as
fewer than `N` requests went before. -/
theorem signLoop_data_phase_upto (pf : Platform) (ledger : LedgerCosmos) (api : Exchange)
    (path : List Nat) (N : Nat) (hok : ∀ h m, h.length < N → (api h m).err = none) :
    ∀ (n : Nat) (tx : List Nat) (idx cnt : Nat) (fin : List Nat) (sent : List Packet)
      (fuel : Nat),
      chunkCount tx.length = n → 2 ≤ idx → idx ≤ 255 → idx + n = cnt + 1 → cnt ≤ 255 →
      sent.length + n ≤ N →
      ∃ fin', signLoop pf ledger api path (n + fuel) ⟨idx, cnt, tx, fin, sent⟩ =
        signLoop pf ledger api path fuel
          ⟨(cnt + 1) % 256, cnt, [], fin', sent ++ dataPackets n tx⟩ := by
  intro n
  induction n with
  | zero =>
    intro tx idx cnt fin sent fuel hn h2 h255 hsum _ _
    have hlen := chunkCount_eq_zero hn
    have htx : tx = [] := List.length_eq_zero.mp hlen
    have hidx : (cnt + 1) % 256 = idx := by
      rw [← hsum]; exact Nat.mod_eq_of_lt (by omega)
    refine ⟨fin, ?_⟩
    simp [htx, hidx, dataPackets]
  | succ k ih =>
    intro tx idx cnt fin sent fuel hn h2 h255 hsum hcnt hN
    have hfuel : k + 1 + fuel = (k + fuel) + 1 := by omega
    have hle : idx ≤ cnt := by omega
    have hne1 : idx ≠ 1 := by omega
    have hmsg := signMessage_data pf ledger path ⟨idx, cnt, tx, fin, sent⟩ hne1
    have hstep := signLoop_step_ok pf ledger api path (k + fuel) ⟨idx, cnt, tx, fin, sent⟩ _ _
      hle hmsg (hok _ _ (by simp only; omega))
    rw [hfuel, hstep]
    have hgt : idx > 1 := by omega
    simp only [hgt, if_true]
    cases k with
    | zero =>
      have hb := chunkCount_eq_one hn
      have hmin : min tx.length 250 = tx.length := by omega
      have heq : idx = cnt := by omega
      refine ⟨(api sent ([0x55, 0x02, 2, 0, tx.length] ++ tx)).response, ?_⟩
      simp [hmin, heq, dataPackets]
    | succ j =>
      have hb := chunkCount_sub hn
      have hmin : min tx.length 250 = 250 := by omega
      have hlt : idx ≠ cnt := by omega
      have hmod : (idx + 1) % 256 = idx + 1 := Nat.mod_eq_of_lt (by omega)
      have hdrop : chunkCount (tx.drop 250).length = j + 1 := by
        rw [List.length_drop]; exact hb.2
      obtain ⟨fin', hih⟩ := ih (tx.drop 250) (idx + 1) cnt
        (api sent ([0x55, 0x02, 1, 0, 250] ++ tx.take 250)).response
        (sent ++ [[0x55, 0x02, 1, 0, 250] ++ tx.take 250]) fuel hdrop (by omega) (by omega)
        (by omega) hcnt
        (by simp only [List.length_append, List.length_singleton]; omega)
      refine ⟨fin', ?_⟩
      simp only [hmin, hlt, if_false, hmod]
      rw [hih]
      simp [dataPackets]

/-- For 63251 to 63500 bytes, when the first 256 exchanges succeed and the 257th
fails, `sign` returns the classified error only after 257 exchanges: the path
packet, the 254 data packets, an empty more-data packet sent at the wrapped index
0, and the path packet a second time. -/
theorem sign_failure_after_wrap (pf : Platform) (ledger : LedgerCosmos) (api : Exchange)
    (path pb tx resp : List Nat) (e : String) (g : Nat)
    (hname : ledger.appName = gitopiaAppName)
    (henc : pf.GetBip32bytesv2 path 3 = .ok pb)
    (hok : ∀ h m, h.length < 256 → (api h m).err = none)
    (hfail : ∀ h m, h.length = 256 → api h m = ⟨resp, some e⟩)
    (h1 : 63251 ≤ tx.length) (h2 : tx.length ≤ 63500) :
    sign pf ledger api (256 + (g + 1)) path tx =
      ⟨some ([], some (signError e resp)),
        ((([0x55, 0x02, 0, 0, pb.length % 256] ++ pb) :: dataPackets 254 tx) ++ [[0x55, 0x02, 1, 0, 0]]) ++ [([0x55, 0x02, 0, 0, pb.length % 256] ++ pb)]⟩ := by
  have hcnt := packetCount_eq_255 pf tx h1 h2
  have hc : chunkCount tx.length = 254 := by
    unfold chunkCount; omega
  have hlen254 := dataPackets_length 254 tx
  have hfuel : 256 + (g + 1) = (254 + (g + 1 + 1)) + 1 := by omega
  have hm1 := signMessage_first pf ledger path pb ⟨1, 255, tx, [], []⟩ hname henc rfl
  have hA : signLoop pf ledger api path (254 + (g + 1 + 1) + 1) ⟨1, 255, tx, [], []⟩
      = signLoop pf ledger api path (254 + (g + 1 + 1))
          ⟨2, 255, tx, (api [] ([0x55, 0x02, 0, 0, pb.length % 256] ++ pb)).response, [([0x55, 0x02, 0, 0, pb.length % 256] ++ pb)]⟩ :=
    signLoop_step_ok pf ledger api path (254 + (g + 1 + 1))
      ⟨1, 255, tx, [], []⟩ _ _ (by simp) hm1 (hok _ _ (by simp))
  obtain ⟨fin', hphase⟩ := signLoop_data_phase_upto pf ledger api path 256 hok 254 tx 2 255
    (api [] ([0x55, 0x02, 0, 0, pb.length % 256] ++ pb)).response [([0x55, 0x02, 0, 0, pb.length % 256] ++ pb)] (g + 1 + 1) hc (by omega) (by omega)
    (by omega) (by omega) (by simp)
  have hB : signLoop pf ledger api path (254 + (g + 1 + 1))
        ⟨2, 255, tx, (api [] ([0x55, 0x02, 0, 0, pb.length % 256] ++ pb)).response, [([0x55, 0x02, 0, 0, pb.length % 256] ++ pb)]⟩
      = signLoop pf ledger api path (g + 1 + 1) ⟨0, 255, [], fin', ([0x55, 0x02, 0, 0, pb.length % 256] ++ pb) :: dataPackets 254 tx⟩ :=
    hphase
  have hm0 : signMessage pf ledger path ⟨0, 255, [], fin', ([0x55, 0x02, 0, 0, pb.length % 256] ++ pb) :: dataPackets 254 tx⟩
      = .ok (0, [0x55, 0x02, 1, 0, 0]) :=
    signMessage_data pf ledger path ⟨0, 255, [], fin', ([0x55, 0x02, 0, 0, pb.length % 256] ++ pb) :: dataPackets 254 tx⟩ (by simp)
  have hC : signLoop pf ledger api path (g + 1 + 1) ⟨0, 255, [], fin', ([0x55, 0x02, 0, 0, pb.length % 256] ++ pb) :: dataPackets 254 tx⟩
      = signLoop pf ledger api path (g + 1)
          ⟨1, 255, [], (api (([0x55, 0x02, 0, 0, pb.length % 256] ++ pb) :: dataPackets 254 tx) [0x55, 0x02, 1, 0, 0]).response,
            (([0x55, 0x02, 0, 0, pb.length % 256] ++ pb) :: dataPackets 254 tx) ++ [[0x55, 0x02, 1, 0, 0]]⟩ :=
    signLoop_step_ok pf ledger api path (g + 1)
      ⟨0, 255, [], fin', ([0x55, 0x02, 0, 0, pb.length % 256] ++ pb) :: dataPackets 254 tx⟩ _ _ (by simp) hm0
      (hok _ _ (by simp [hlen254]))
  have hlen256 : ((([0x55, 0x02, 0, 0, pb.length % 256] ++ pb) :: dataPackets 254 tx) ++ [[0x55, 0x02, 1, 0, 0]]).length = 256 := by
    simp [hlen254]
  have hreply := hfail ((([0x55, 0x02, 0, 0, pb.length % 256] ++ pb) :: dataPackets 254 tx) ++ [[0x55, 0x02, 1, 0, 0]]) ([0x55, 0x02, 0, 0, pb.length % 256] ++ pb) hlen256
  have hm1' := signMessage_first pf ledger path pb
    ⟨1, 255, [], (api (([0x55, 0x02, 0, 0, pb.length % 256] ++ pb) :: dataPackets 254 tx) [0x55, 0x02, 1, 0, 0]).response,
      (([0x55, 0x02, 0, 0, pb.length % 256] ++ pb) :: dataPackets 254 tx) ++ [[0x55, 0x02, 1, 0, 0]]⟩ hname henc rfl
  have hD := signLoop_step_fail pf ledger api path g
    ⟨1, 255, [], (api (([0x55, 0x02, 0, 0, pb.length % 256] ++ pb) :: dataPackets 254 tx) [0x55, 0x02, 1, 0, 0]).response,
      (([0x55, 0x02, 0, 0, pb.length % 256] ++ pb) :: dataPackets 254 tx) ++ [[0x55, 0x02, 1, 0, 0]]⟩ _ _ e (by simp) hm1' (by rw [hreply])
  unfold sign
  rw [hcnt, hfuel, hA, hB, hC, hD, hreply]

/-- C6 (defect of the 8-bit packet counter): for a transaction of 63251 bytes on
a transport whose 257th exchange fails, `packetCount` is 255 and the index has
wrapped 255 → 0 → 1 when the failure comes: the failing exchange is that of
packet 1, the path packet, sent for the second time, and `sign` returns the error
after 257 exchanges, not after one. -/
theorem sign_63251_bytes_failure_after_wrap (g : Nat) :
    (sign zeroPathPlatform gitopiaSession failAfterWrapApi (256 + (g + 1)) [44, 118, 0, 0, 0]
        (List.replicate 63251 0)).result = some ([], some (.exchange "transport down"))
    ∧ (sign zeroPathPlatform gitopiaSession failAfterWrapApi (256 + (g + 1)) [44, 118, 0, 0, 0]
        (List.replicate 63251 0)).sent.length = 257
    ∧ (sign zeroPathPlatform gitopiaSession failAfterWrapApi (256 + (g + 1)) [44, 118, 0, 0, 0]
        (List.replicate 63251 0)).sent[0]? = some ([0x55, 0x02, 0, 0, 20] ++ List.replicate 20 0)
    ∧ (sign zeroPathPlatform gitopiaSession failAfterWrapApi (256 + (g + 1)) [44, 118, 0, 0, 0]
        (List.replicate 63251 0)).sent[256]?
        = some ([0x55, 0x02, 0, 0, 20] ++ List.replicate 20 0) := by
  have hrun := sign_failure_after_wrap zeroPathPlatform gitopiaSession failAfterWrapApi
    [44, 118, 0, 0, 0] (List.replicate 20 0) (List.replicate 63251 0) [] "transport down" g
    rfl rfl
    (by
      intro h m hh
      have hne : h.length ≠ 256 := by omega
      simp [failAfterWrapApi, hne])
    (by
      intro h m hh
      simp [failAfterWrapApi, hh])
    (Nat.le_of_eq (List.length_replicate _ _).symm)
    (le_of_eq_of_le (List.length_replicate _ _) (by norm_num))
  have hlen254 := dataPackets_length 254 (List.replicate 63251 0)
  generalize List.replicate 63251 0 = tx at hrun hlen254 ⊢
  rw [hrun]
  have hp : ([0x55, 0x02, 0, 0, (List.replicate 20 0).length % 256] ++ List.replicate 20 0 : List Nat)
      = [0x55, 0x02, 0, 0, 20] ++ List.replicate 20 0 := by decide
  rw [hp]
  have hlen256 : ((([0x55, 0x02, 0, 0, 20] ++ List.replicate 20 0) :: dataPackets 254 tx)
      ++ [[0x55, 0x02, 1, 0, 0]]).length = 256 := by
    simp [hlen254]
  have hse : signError "transport down" [] = .exchange "transport down" := by decide
  refine ⟨?_, ?_, ?_, ?_⟩
  · show some (([] : List Nat), some (signError "transport down" [])) = _
    rw [hse]
  · rw [List.length_append, hlen256]
    rfl
  · rfl
  · rw [List.getElem?_append_right (Nat.le_of_eq hlen256), hlen256]
    rfl

/-! ## Claims about `getAddressPubKeySECP256K1` -/

theorem all_validHRPByte_iff (hrp : List Nat) :
    hrp.all validHRPByte = true ↔ ∀ b ∈ hrp, 33 ≤ b ∧ b ≤ 126 := by
  simp [List.all_eq_true, validHRPByte]

theorem not_badHRP_iff (hrp : List Nat) :
    ¬ badHRP hrp ↔ hrp.length ≤ 83 ∧ hrp.all validHRPByte = true := by
  rw [all_validHRPByte_iff]
  unfold badHRP
  constructor
  · intro h
    refine ⟨by omega, fun b hb => ?_⟩
    by_contra hc
    exact h (Or.inr ⟨b, hb, by omega⟩)
  · rintro ⟨h1, h2⟩ (h | ⟨b, hb, hc⟩)
    · omega
    · have := h2 b hb
      omega

/-- The run of `getAddressPubKeySECP256K1` for an HRP that passes validation. -/
theorem getAddress_of_valid (pf : Platform) (ledger : LedgerCosmos) (api : Exchange)
    (path hrp : List Nat) (c : Bool) (hv : ¬ badHRP hrp) :
    getAddressPubKeySECP256K1 pf ledger api path hrp c =
      match GetBip32bytes pf ledger path 3 with
      | .error e => ⟨[], [], some e, []⟩
      | .ok pathBytes =>
        match (api [] (addrMessage hrp pathBytes c)).err with
        | some e => ⟨[], [], some (.exchange e), [addrMessage hrp pathBytes c]⟩
        | none =>
          if (api [] (addrMessage hrp pathBytes c)).response.length < 35 + hrp.length then
            ⟨[], [], some (.errorf "Invalid response"), [addrMessage hrp pathBytes c]⟩
          else
            ⟨(api [] (addrMessage hrp pathBytes c)).response.take 33,
              (api [] (addrMessage hrp pathBytes c)).response.drop 33, none,
              [addrMessage hrp pathBytes c]⟩ := by
  obtain ⟨h1, h2⟩ := (not_badHRP_iff hrp).mp hv
  have h1' : ¬ hrp.length > 83 := by omega
  simp only [getAddressPubKeySECP256K1, h1', h2, if_false, Bool.not_true, Bool.false_eq_true]

/-- The run of `getAddressPubKeySECP256K1` for an HRP that fails validation. -/
theorem getAddress_of_bad (pf : Platform) (ledger : LedgerCosmos) (api : Exchange)
    (path hrp : List Nat) (c : Bool) (hb : badHRP hrp) :
    getAddressPubKeySECP256K1 pf ledger api path hrp c
        = ⟨[], [], some (.errorf "hrp len should be <10"), []⟩
    ∨ getAddressPubKeySECP256K1 pf ledger api path hrp c
        = ⟨[], [], some (.errorf "all characters in the HRP must be in the [33, 126] range"),
            []⟩ := by
  by_cases h1 : hrp.length > 83
  · left
    simp [getAddressPubKeySECP256K1, h1]
  · right
    have h2 : ¬ hrp.all validHRPByte = true := by
      intro h
      exact (not_badHRP_iff hrp).mpr ⟨by omega, h⟩ hb
    have h3 : (!hrp.all validHRPByte) = true := by
      simpa using h2
    simp only [getAddressPubKeySECP256K1, h1, if_false, h3, if_true]

/-- An error of `GetBip32bytes` is the encoder's or the unsupported-app error. -/
theorem GetBip32bytes_error (pf : Platform) (ledger : LedgerCosmos) (path : List Nat)
    (hc : Nat) (e : Error) (h : GetBip32bytes pf ledger path hc = .error e) :
    (∃ x, e = .bip32 x) ∨ e = .errorf "App version is not supported" := by
  unfold GetBip32bytes at h
  split at h
  · cases hv : pf.GetBip32bytesv2 path 3 with
    | error x =>
      rw [hv] at h
      simp only [Except.error.injEq] at h
      exact Or.inl ⟨x, h.symm⟩
    | ok pb =>
      rw [hv] at h
      simp at h
  · simp only [Except.error.injEq] at h
    exact Or.inr h.symm

/-- C7: `getAddressPubKeySECP256K1` returns one of its two HRP-validation errors
exactly when the HRP is longer than 83 bytes or holds a byte outside `[33, 126]`;
an HRP of at most 83 bytes, all in `[33, 126]`, passes validation: the call goes
on to the path encoding and, when the path is encoded, makes its one exchange. -/
theorem getAddress_hrp_validation (pf : Platform) (ledger : LedgerCosmos) (api : Exchange)
    (path hrp : List Nat) (c : Bool) :
    (isHRPError (getAddressPubKeySECP256K1 pf ledger api path hrp c).err ↔ badHRP hrp)
    ∧ ((hrp.length ≤ 83 ∧ ∀ b ∈ hrp, 33 ≤ b ∧ b ≤ 126) →
        match GetBip32bytes pf ledger path 3 with
        | .error e => getAddressPubKeySECP256K1 pf ledger api path hrp c = ⟨[], [], some e, []⟩
        | .ok pathBytes =>
          (getAddressPubKeySECP256K1 pf ledger api path hrp c).sent
            = [addrMessage hrp pathBytes c]) := by
  constructor
  · constructor
    · intro herr
      by_contra hv
      rw [getAddress_of_valid pf ledger api path hrp c hv] at herr
      unfold isHRPError at herr
      cases hg : GetBip32bytes pf ledger path 3 with
      | error e =>
        rw [hg] at herr
        rcases GetBip32bytes_error pf ledger path 3 e hg with ⟨x, rfl⟩ | rfl
        · simp at herr
        · simp at herr
      | ok pb =>
        rw [hg] at herr
        simp only at herr
        split at herr
        · simp at herr
        · split at herr
          · simp at herr
          · simp at herr
    · intro hb
      rcases getAddress_of_bad pf ledger api path hrp c hb with h | h
      · rw [h]; exact Or.inl rfl
      · rw [h]; exact Or.inr rfl
  · rintro ⟨h1, h2⟩
    have hv : ¬ badHRP hrp := (not_badHRP_iff hrp).mpr ⟨h1, (all_validHRPByte_iff hrp).mpr h2⟩
    rw [getAddress_of_valid pf ledger api path hrp c hv]
    cases GetBip32bytes pf ledger path 3 with
    | error e => rfl
    | ok pb =>
      simp only
      split
      · rfl
      · split <;> rfl

/-- C8: when the HRP is longer than 83 bytes or holds a byte outside `[33, 126]`,
`getAddressPubKeySECP256K1` returns a validation error with a nil pubkey and an
empty address, and no request reaches the transport. -/
theorem getAddress_bad_hrp_no_exchange (pf : Platform) (ledger : LedgerCosmos)
    (api : Exchange) (path hrp : List Nat) (c : Bool)
    (hb : hrp.length > 83 ∨ ∃ b ∈ hrp, b < 33 ∨ 126 < b) :
    isHRPError (getAddressPubKeySECP256K1 pf ledger api path hrp c).err
    ∧ (getAddressPubKeySECP256K1 pf ledger api path hrp c).pubkey = []
    ∧ (getAddressPubKeySECP256K1 pf ledger api path hrp c).addr = []
    ∧ (getAddressPubKeySECP256K1 pf ledger api path hrp c).sent = [] := by
  rcases getAddress_of_bad pf ledger api path hrp c hb with h | h
  · rw [h]; exact ⟨Or.inl rfl, rfl, rfl, rfl⟩
  · rw [h]; exact ⟨Or.inr rfl, rfl, rfl, rfl⟩

/-- Witness for `getAddress_bad_hrp_no_exchange`: an HRP of 84 letters `a`. -/
theorem getAddress_bad_hrp_no_exchange_witness :
    (List.replicate 84 97).length > 83
    ∧ (getAddressPubKeySECP256K1 zeroPathPlatform gitopiaSession countingApi
        [44, 118, 0, 0, 0] (List.replicate 84 97) false).err
        = some (.errorf "hrp len should be <10")
    ∧ (getAddressPubKeySECP256K1 zeroPathPlatform gitopiaSession countingApi
        [44, 118, 0, 0, 0] (List.replicate 84 97) false).sent = [] := by
  have h := getAddress_bad_hrp_no_exchange zeroPathPlatform gitopiaSession countingApi
    [44, 118, 0, 0, 0] (List.replicate 84 97) false (Or.inl (by simp))
  exact ⟨by simp, by simp [getAddressPubKeySECP256K1], h.2.2.2⟩

/-- The run of `getAddressPubKeySECP256K1` once validation and path encoding
have passed. -/
theorem getAddress_of_encoded (pf : Platform) (ledger : LedgerCosmos) (api : Exchange)
    (path pb hrp : List Nat) (c : Bool)
    (hlen : hrp.length ≤ 83) (hbytes : ∀ b ∈ hrp, 33 ≤ b ∧ b ≤ 126)
    (hname : ledger.appName = gitopiaAppName)
    (henc : pf.GetBip32bytesv2 path 3 = .ok pb) :
    getAddressPubKeySECP256K1 pf ledger api path hrp c =
      match (api [] (addrMessage hrp pb c)).err with
      | some e => ⟨[], [], some (.exchange e), [addrMessage hrp pb c]⟩
      | none =>
        if (api [] (addrMessage hrp pb c)).response.length < 35 + hrp.length then
          ⟨[], [], some (.errorf "Invalid response"), [addrMessage hrp pb c]⟩
        else
          ⟨(api [] (addrMessage hrp pb c)).response.take 33,
            (api [] (addrMessage hrp pb c)).response.drop 33, none,
            [addrMessage hrp pb c]⟩ := by
  have hv : ¬ badHRP hrp := (not_badHRP_iff hrp).mpr ⟨hlen, (all_validHRPByte_iff hrp).mpr hbytes⟩
  have hg : GetBip32bytes pf ledger path 3 = .ok pb := by
    simp [GetBip32bytes, hname, henc]
  rw [getAddress_of_valid pf ledger api path hrp c hv, hg]

/-- Once validation and path encoding have passed, exactly one request is sent. -/
theorem getAddress_sent_of_encoded (pf : Platform) (ledger : LedgerCosmos) (api : Exchange)
    (path pb hrp : List Nat) (c : Bool)
    (hlen : hrp.length ≤ 83) (hbytes : ∀ b ∈ hrp, 33 ≤ b ∧ b ≤ 126)
    (hname : ledger.appName = gitopiaAppName)
    (henc : pf.GetBip32bytesv2 path 3 = .ok pb) :
    (getAddressPubKeySECP256K1 pf ledger api path hrp c).sent = [addrMessage hrp pb c] := by
  rw [getAddress_of_encoded pf ledger api path pb hrp c hlen hbytes hname henc]
  cases (api [] (addrMessage hrp pb c)).err with
  | some e => rfl
  | none =>
    simp only
    by_cases hshort : (api [] (addrMessage hrp pb c)).response.length < 35 + hrp.length
    · rw [if_pos hshort]
    · rw [if_neg hshort]

/-- C9: for an HRP that passes validation and an exchange that succeeds with
response `r`, `getAddressPubKeySECP256K1` returns the error "Invalid response"
exactly when `len(r) < 35 + len(hrp)`; otherwise it returns without error the
first 33 bytes of `r` as pubkey and the bytes of `r` from offset 33 on as address. -/
theorem getAddress_response (pf : Platform) (ledger : LedgerCosmos) (api : Exchange)
    (path pb hrp : List Nat) (c : Bool)
    (hlen : hrp.length ≤ 83) (hbytes : ∀ b ∈ hrp, 33 ≤ b ∧ b ≤ 126)
    (hname : ledger.appName = gitopiaAppName)
    (henc : pf.GetBip32bytesv2 path 3 = .ok pb)
    (hr : (api [] (addrMessage hrp pb c)).err = none) :
    ((getAddressPubKeySECP256K1 pf ledger api path hrp c).err
        = some (.errorf "Invalid response")
      ↔ (api [] (addrMessage hrp pb c)).response.length < 35 + hrp.length)
    ∧ (35 + hrp.length ≤ (api [] (addrMessage hrp pb c)).response.length →
        (getAddressPubKeySECP256K1 pf ledger api path hrp c).err = none
        ∧ (getAddressPubKeySECP256K1 pf ledger api path hrp c).pubkey
            = (api [] (addrMessage hrp pb c)).response.take 33
        ∧ (getAddressPubKeySECP256K1 pf ledger api path hrp c).addr
            = (api [] (addrMessage hrp pb c)).response.drop 33) := by
  rw [getAddress_of_encoded pf ledger api path pb hrp c hlen hbytes hname henc, hr]
  simp only
  by_cases hshort : (api [] (addrMessage hrp pb c)).response.length < 35 + hrp.length
  · rw [if_pos hshort]
    exact ⟨⟨fun _ => hshort, fun _ => rfl⟩, fun h => absurd hshort (by omega)⟩
  · rw [if_neg hshort]
    refine ⟨⟨fun h => ?_, fun h => absurd h hshort⟩, fun _ => ⟨rfl, rfl, rfl⟩⟩
    simp at h

/-- Witness for `getAddress_response`: HRP `cosmos`, no confirmation, and a
device answer of 33 key bytes followed by `cosmos1abc`. -/
theorem getAddress_response_witness :
    (getAddressPubKeySECP256K1 zeroPathPlatform gitopiaSession cosmosAddressApi
        [44, 118, 0, 0, 0] (strBytes "cosmos") false).err = none
    ∧ (getAddressPubKeySECP256K1 zeroPathPlatform gitopiaSession cosmosAddressApi
        [44, 118, 0, 0, 0] (strBytes "cosmos") false).pubkey = List.replicate 33 2
    ∧ (getAddressPubKeySECP256K1 zeroPathPlatform gitopiaSession cosmosAddressApi
        [44, 118, 0, 0, 0] (strBytes "cosmos") false).addr = strBytes "cosmos1abc" := by
  obtain ⟨_, h⟩ := getAddress_response zeroPathPlatform gitopiaSession cosmosAddressApi
    [44, 118, 0, 0, 0] (List.replicate 20 0) (strBytes "cosmos") false
    (by decide) (by decide) rfl rfl rfl
  obtain ⟨h1, h2, h3⟩ := h (by decide)
  refine ⟨h1, ?_, ?_⟩
  · rw [h2]; decide
  · rw [h3]; decide

/-- The request of lines 271-275 when the payload length fits the length byte. -/
theorem addrMessage_eq (hrp pb : List Nat) (c : Bool)
    (hfit : 1 + hrp.length + pb.length < 256) :
    addrMessage hrp pb c
      = [0x55, 0x04, if c then 1 else 0, 0, 1 + hrp.length + pb.length]
          ++ [hrp.length] ++ hrp ++ pb := by
  have h1 : hrp.length % 256 = hrp.length := Nat.mod_eq_of_lt (by omega)
  have h2 : (hrp.length + pb.length + 1) % 256 = 1 + hrp.length + pb.length := by
    rw [Nat.mod_eq_of_lt (by omega)]; omega
  simp [addrMessage, userCLA, userINSGetAddrSecp256k1, h1, h2]

/-- C10: for an HRP that passes validation, an encoded path `p` and a
confirmation flag `c`, with `1 + len(hrp) + len(p)` below 256, the one request
that `getAddressPubKeySECP256K1` sends is
`[0x55, 0x04, (1 if c else 0), 0, n] ++ [len(hrp)] ++ hrp ++ p` where `n` is the
payload size `1 + len(hrp) + len(p)`. -/
theorem getAddress_request (pf : Platform) (ledger : LedgerCosmos) (api : Exchange)
    (path pb hrp : List Nat) (c : Bool)
    (hlen : hrp.length ≤ 83) (hbytes : ∀ b ∈ hrp, 33 ≤ b ∧ b ≤ 126)
    (hname : ledger.appName = gitopiaAppName)
    (henc : pf.GetBip32bytesv2 path 3 = .ok pb)
    (hfit : 1 + hrp.length + pb.length < 256) :
    (getAddressPubKeySECP256K1 pf ledger api path hrp c).sent
      = [[0x55, 0x04, if c then 1 else 0, 0, 1 + hrp.length + pb.length]
          ++ [hrp.length] ++ hrp ++ pb]
    ∧ (([0x55, 0x04, if c then 1 else 0, 0, 1 + hrp.length + pb.length]
          ++ [hrp.length] ++ hrp ++ pb).drop 5).length = 1 + hrp.length + pb.length := by
  constructor
  · rw [getAddress_sent_of_encoded pf ledger api path pb hrp c hlen hbytes hname henc,
      addrMessage_eq hrp pb c hfit]
  · simp
    omega

/-- Witness for `getAddress_request`: HRP `cosmos`, a 20-byte encoded path and
confirmation required. -/
theorem getAddress_request_witness :
    (getAddressPubKeySECP256K1 zeroPathPlatform gitopiaSession cosmosAddressApi
        [44, 118, 0, 0, 0] (strBytes "cosmos") true).sent
      = [[0x55, 0x04, 1, 0, 27, 6, 99, 111, 115, 109, 111, 115,
          0, 0, 0, 0, 0, 0, 0, 0, 0, 0, 0, 0, 0, 0, 0, 0, 0, 0, 0, 0]] := by
  have h := (getAddress_request zeroPathPlatform gitopiaSession cosmosAddressApi
    [44, 118, 0, 0, 0] (List.replicate 20 0) (strBytes "cosmos") true
    (by decide) (by decide) rfl rfl (by decide)).1
  rw [h]
  decide

/-! ## Claims about `LoadVersion` and `LoadAppName` -/

/-- C11: `LoadVersion` sends exactly `[0x55, 0x00, 0, 0, 0]`; when the exchange
succeeds with response `r` it returns the error "invalid response" exactly when
`len(r) < 4`, and a response `a, b, c, d` followed by any further bytes sets the
version to `{AppMode: a, Major: b, Minor: c, Patch: d}` and leaves the app name
as it was. -/
theorem LoadVersion_decodes (ledger : LedgerCosmos) (api : Exchange) :
    (LoadVersion ledger api).sent = [[0x55, 0x00, 0, 0, 0]]
    ∧ ((api [] [0x55, 0x00, 0, 0, 0]).err = none →
        ((LoadVersion ledger api).ending = .returned (some (.errorf "invalid response"))
          ↔ (api [] [0x55, 0x00, 0, 0, 0]).response.length < 4)
        ∧ ∀ a b c d rest, (api [] [0x55, 0x00, 0, 0, 0]).response = a :: b :: c :: d :: rest →
            LoadVersion ledger api
              = ⟨{ appName := ledger.appName, version := ⟨a, b, c, d⟩ }, .returned none,
                  [[0x55, 0x00, 0, 0, 0]]⟩) := by
  have hmsg : [userCLA, userINSGetVersion, 0, 0, 0] = [0x55, 0x00, 0, 0, 0] := rfl
  constructor
  · unfold LoadVersion
    simp only [hmsg]
    cases (api [] [0x55, 0x00, 0, 0, 0]).err with
    | some e => rfl
    | none =>
      simp only
      split <;> rfl
  · intro herr
    constructor
    · unfold LoadVersion
      simp only [hmsg, herr]
      by_cases hshort : (api [] [0x55, 0x00, 0, 0, 0]).response.length < 4
      · simp [hshort]
      · simp [hshort]
    · intro a b c d rest hr
      unfold LoadVersion
      simp only [hmsg, herr, hr]
      simp

/-- C12: `LoadAppName` sends exactly `[0xB0, 0x01, 0, 0, 0]`; a successful
response whose first byte is not 1 makes it return the error "response format ID
not recognized" and leaves the session as it was; a successful response made of
the byte 1, a length byte `N` and then `N` name bytes (followed by anything) sets
the app name to those `N` bytes. -/
theorem LoadAppName_decodes (ledger : LedgerCosmos) (api : Exchange) (spare : List Nat) :
    (LoadAppName ledger api spare).sent = [[0xB0, 0x01, 0, 0, 0]]
    ∧ (∀ marker rest, api [] [0xB0, 0x01, 0, 0, 0] = ⟨marker :: rest, none⟩ → marker ≠ 1 →
        LoadAppName ledger api spare
          = ⟨ledger, .returned (some (.errorf "response format ID not recognized")),
              [[0xB0, 0x01, 0, 0, 0]]⟩)
    ∧ (∀ name rest, api [] [0xB0, 0x01, 0, 0, 0] = ⟨1 :: name.length :: (name ++ rest), none⟩ →
        LoadAppName ledger api spare
          = ⟨{ appName := name, version := ledger.version }, .returned none,
              [[0xB0, 0x01, 0, 0, 0]]⟩) := by
  refine ⟨?_, ?_, ?_⟩
  · unfold LoadAppName
    simp only
    cases (api [] [0xB0, 0x01, 0, 0, 0]).err with
    | some e => rfl
    | none =>
      simp only
      cases (api [] [0xB0, 0x01, 0, 0, 0]).response[0]? with
      | none => rfl
      | some marker =>
        simp only
        split
        · rfl
        · cases (api [] [0xB0, 0x01, 0, 0, 0]).response[1]? with
          | none => rfl
          | some n =>
            simp only
            split <;> rfl
  · intro marker rest hr hne
    unfold LoadAppName
    simp only [hr]
    simp [hne]
  · intro name rest hr
    unfold LoadAppName
    simp only [hr]
    have hle : 2 + name.length ≤ name.length + rest.length + 1 + 1 + spare.length := by
      omega
    simp [hle]

/-- C13 (missing length check): `LoadVersion` and `getAddressPubKeySECP256K1`
test `len(response)` before they index the response, `LoadAppName` does not.  On
a successful but empty response, and on the 1-byte response `[1]`, it panics
instead of returning an error; on `[1, 5, 65]` it panics when the slice has no
spare capacity, and with spare capacity it returns without error a name made of
`65` and four bytes that lie beyond the response. -/
theorem LoadAppName_short_response (ledger : LedgerCosmos) (spare : List Nat) :
    (LoadAppName ledger emptyReplyApi spare).ending = .panicked
    ∧ (LoadAppName ledger (constApi [1]) spare).ending = .panicked
    ∧ (LoadAppName ledger (constApi [1, 5, 65]) []).ending = .panicked
    ∧ LoadAppName ledger (constApi [1, 5, 65]) [0x90, 0x00, 7, 7, 7]
        = ⟨{ appName := [65, 0x90, 0x00, 7, 7], version := ledger.version }, .returned none,
            [[0xB0, 0x01, 0, 0, 0]]⟩ := by
  refine ⟨?_, ?_, ?_, ?_⟩
  · simp [LoadAppName, emptyReplyApi]
  · simp [LoadAppName, constApi]
  · simp [LoadAppName, constApi]
  · simp [LoadAppName, constApi]

/-! ## Claims about `GetBip32bytes` and the app-name gate -/

/-- `GetBip32bytes` returns the unsupported-app error exactly when the app name
is not `"Gitopia"`, whatever the path and the `hardenCount` argument. -/
theorem GetBip32bytes_unsupported_iff (pf : Platform) (ledger : LedgerCosmos)
    (path : List Nat) (hc : Nat) :
    GetBip32bytes pf ledger path hc = .error (.errorf "App version is not supported")
      ↔ ledger.appName ≠ gitopiaAppName := by
  unfold GetBip32bytes
  by_cases hname : ledger.appName = gitopiaAppName
  · simp only [hname, if_true, ne_eq, not_true_eq_false, iff_false]
    cases pf.GetBip32bytesv2 path 3 with
    | error e => simp
    | ok pb => simp
  · simp [hname]

/-- On a session named `"Gitopia"` the result of `GetBip32bytes` is that of
`GetBip32bytesv2(path, 3)`, whatever the `hardenCount` argument. -/
theorem GetBip32bytes_gitopia (pf : Platform) (ledger : LedgerCosmos)
    (path : List Nat) (hc : Nat) (hname : ledger.appName = gitopiaAppName) :
    GetBip32bytes pf ledger path hc =
      match pf.GetBip32bytesv2 path 3 with
      | .error e => .error (.bip32 e)
      | .ok pathBytes => .ok pathBytes := by
  simp [GetBip32bytes, hname]

/-- On a session with another app name `sign` returns the unsupported-app error
without any exchange, provided that the loop is entered (`packetCount ≠ 0`). -/
theorem sign_other_app (pf : Platform) (ledger : LedgerCosmos) (api : Exchange)
    (path tx : List Nat) (fuel : Nat)
    (hname : ledger.appName ≠ gitopiaAppName) (hcnt : packetCount pf tx ≠ 0) :
    sign pf ledger api (fuel + 1) path tx
      = ⟨some ([], some (.errorf "App version is not supported")), []⟩ := by
  have hle : 1 ≤ packetCount pf tx := by omega
  simp [sign, signLoop, signMessage, GetBip32bytes, hname, hle]

/-- On a session with another app name `getAddressPubKeySECP256K1` returns an
error without any exchange. -/
theorem getAddress_other_app (pf : Platform) (ledger : LedgerCosmos) (api : Exchange)
    (path hrp : List Nat) (c : Bool) (hname : ledger.appName ≠ gitopiaAppName) :
    (getAddressPubKeySECP256K1 pf ledger api path hrp c).err ≠ none
    ∧ (getAddressPubKeySECP256K1 pf ledger api path hrp c).sent = [] := by
  by_cases hb : badHRP hrp
  · rcases getAddress_of_bad pf ledger api path hrp c hb with h | h
    · rw [h]; exact ⟨by simp, rfl⟩
    · rw [h]; exact ⟨by simp, rfl⟩
  · rw [getAddress_of_valid pf ledger api path hrp c hb]
    simp [GetBip32bytes, hname]

/-- C14 (defect of the 8-bit packet counter): on a session named `"Cosmos"`,
for a transaction of 63750 bytes, `packetCount` wraps to 0, the loop body with
the call of `GetBip32bytes` is never entered, and `sign` returns `(nil, nil)`:
it does not fail, although the app name is not `"Gitopia"`. -/
theorem sign_other_app_63750_bytes_no_error :
    cosmosSession.appName ≠ gitopiaAppName
    ∧ GetBip32bytes zeroPathPlatform cosmosSession [44, 118, 0, 0, 0] 3
        = .error (.errorf "App version is not supported")
    ∧ (sign zeroPathPlatform cosmosSession countingApi 1 [44, 118, 0, 0, 0]
        (List.replicate 63750 0)).result = some ([], none) := by
  have hl : (List.replicate 63750 0).length = 63750 := List.length_replicate _ _
  generalize List.replicate 63750 0 = tx at hl ⊢
  rw [sign_of_packetCount_zero zeroPathPlatform cosmosSession countingApi [44, 118, 0, 0, 0] tx 0
    (packetCount_wraps_to_zero zeroPathPlatform tx (by omega) (by omega))]
  exact ⟨by decide, rfl, rfl⟩

/-! ## Claims about `FindLedgerCosmosUserApp` and the session state -/

/-- The paths of `FindLedgerCosmosUserApp` that end in a return: when opening
fails `Close` is never called; when opening succeeds and `LoadAppName` or
`LoadVersion` returns an error, `Close` is called exactly once, an error is
returned and no client is; `CheckVersion` never returns an error; when both loads
succeed `Close` is not called and the returned client is the session that the two
loads have filled in. -/
theorem FindLedgerCosmosUserApp_close (api : Exchange) (spare : List Nat) (e0 : String) :
    FindLedgerCosmosUserApp (.error e0) spare
        = ⟨none, .returned (some (.findLedger e0)), 0, []⟩
    ∧ (∀ err, (LoadAppName newApp api spare).ending = .returned (some err) →
        (FindLedgerCosmosUserApp (.ok api) spare).closes = 1
        ∧ (FindLedgerCosmosUserApp (.ok api) spare).client = none
        ∧ ∃ e, (FindLedgerCosmosUserApp (.ok api) spare).ending = .returned (some e))
    ∧ ((LoadAppName newApp api spare).ending = .returned none →
        ∀ err, (LoadVersion (LoadAppName newApp api spare).ledger
            (fun h m => api ((LoadAppName newApp api spare).sent ++ h) m)).ending
              = .returned (some err) →
        (FindLedgerCosmosUserApp (.ok api) spare).closes = 1
        ∧ (FindLedgerCosmosUserApp (.ok api) spare).client = none
        ∧ ∃ e, (FindLedgerCosmosUserApp (.ok api) spare).ending = .returned (some e))
    ∧ (∀ l, (CheckVersion l).2 = none)
    ∧ ((LoadAppName newApp api spare).ending = .returned none →
        (LoadVersion (LoadAppName newApp api spare).ledger
            (fun h m => api ((LoadAppName newApp api spare).sent ++ h) m)).ending
              = .returned none →
        (FindLedgerCosmosUserApp (.ok api) spare).closes = 0
        ∧ (FindLedgerCosmosUserApp (.ok api) spare).ending = .returned none
        ∧ (FindLedgerCosmosUserApp (.ok api) spare).client
            = some (LoadVersion (LoadAppName newApp api spare).ledger
                (fun h m => api ((LoadAppName newApp api spare).sent ++ h) m)).ledger) := by
  refine ⟨rfl, ?_, ?_, fun _ => rfl, ?_⟩
  · intro err h1
    simp only [FindLedgerCosmosUserApp, h1]
    split
    · exact ⟨rfl, rfl, _, rfl⟩
    · exact ⟨rfl, rfl, _, rfl⟩
  · intro h1 err h2
    simp only [FindLedgerCosmosUserApp, h1, h2]
    split
    · exact ⟨rfl, rfl, _, rfl⟩
    · exact ⟨rfl, rfl, _, rfl⟩
  · intro h1 h2
    simp [FindLedgerCosmosUserApp, h1, h2, CheckVersion]

/-- A device that runs the Gitopia app at version 2.35.0 gives a client with
that name and version, after two exchanges and without a call of `Close`; a
device that fails the version request gives no client and one call of `Close`. -/
theorem FindLedgerCosmosUserApp_examples :
    FindLedgerCosmosUserApp (.ok gitopiaDevice) []
      = ⟨some ⟨gitopiaAppName, ⟨0, 2, 35, 0⟩⟩, .returned none, 0,
          [[0xB0, 0x01, 0, 0, 0], [0x55, 0x00, 0, 0, 0]]⟩
    ∧ FindLedgerCosmosUserApp (.ok noVersionDevice) []
      = ⟨none, .returned (some (.errorf "are you sure the Gitopia or Cosmos app is open?")), 1,
          [[0xB0, 0x01, 0, 0, 0], [0x55, 0x00, 0, 0, 0]]⟩ := by
  constructor <;> decide

/-- When both requests are answered well (`1`, the length of the name, the name,
then anything; and at least four version bytes), the client returned holds that
name and the first four version bytes, and `Close` has not been called. -/
theorem FindLedgerCosmosUserApp_success (api : Exchange) (spare name rest rest' : List Nat)
    (a b c d : Nat)
    (h1 : api [] [0xB0, 0x01, 0, 0, 0] = ⟨1 :: name.length :: (name ++ rest), none⟩)
    (h2 : api [[0xB0, 0x01, 0, 0, 0]] [0x55, 0x00, 0, 0, 0] = ⟨a :: b :: c :: d :: rest', none⟩) :
    FindLedgerCosmosUserApp (.ok api) spare
      = ⟨some ⟨name, ⟨a, b, c, d⟩⟩, .returned none, 0,
          [[0xB0, 0x01, 0, 0, 0], [0x55, 0x00, 0, 0, 0]]⟩ := by
  have hle : 2 + name.length ≤ name.length + rest.length + 1 + 1 + spare.length := by
    omega
  have hr1 : LoadAppName newApp api spare
      = ⟨⟨name, ⟨0, 0, 0, 0⟩⟩, .returned none, [[0xB0, 0x01, 0, 0, 0]]⟩ := by
    unfold LoadAppName
    simp only [h1]
    simp [hle, newApp]
  have hr2 : LoadVersion ⟨name, ⟨0, 0, 0, 0⟩⟩
        (fun h m => api ([[0xB0, 0x01, 0, 0, 0]] ++ h) m)
      = ⟨⟨name, ⟨a, b, c, d⟩⟩, .returned none, [[0x55, 0x00, 0, 0, 0]]⟩ := by
    have hmsg : [userCLA, userINSGetVersion, 0, 0, 0] = [0x55, 0x00, 0, 0, 0] := rfl
    unfold LoadVersion
    simp only [hmsg, List.append_nil, h2]
    simp
  simp only [FindLedgerCosmosUserApp, hr1, hr2, CheckVersion]
  simp

/-- C15 (panic of `LoadAppName` leaves the transport open): opening succeeds and
the device answers the app-name request with an empty response.  `LoadAppName`
panics at `response[0]`; the `defer ledgerAPI.Close()` statements stand in the
error branches behind that call and none has run, so `FindLedgerCosmosUserApp`
ends in the panic after one request: `Close` is called 0 times, and neither an
error nor a client is returned. -/
theorem FindLedgerCosmosUserApp_panic_no_close (spare : List Nat) :
    (∀ h m, (emptyReplyApi h m).err = none)
    ∧ (LoadAppName newApp emptyReplyApi spare).ending = .panicked
    ∧ (FindLedgerCosmosUserApp (.ok emptyReplyApi) spare).closes = 0
    ∧ (FindLedgerCosmosUserApp (.ok emptyReplyApi) spare).ending = .panicked
    ∧ (FindLedgerCosmosUserApp (.ok emptyReplyApi) spare).client = none
    ∧ (FindLedgerCosmosUserApp (.ok emptyReplyApi) spare).sent = [[0xB0, 0x01, 0, 0, 0]] := by
  have hl : LoadAppName newApp emptyReplyApi spare
      = ⟨newApp, .panicked, [[0xB0, 0x01, 0, 0, 0]]⟩ := by
    simp [LoadAppName, emptyReplyApi]
  refine ⟨fun _ _ => rfl, by rw [hl], ?_, ?_, ?_, ?_⟩ <;>
    simp [FindLedgerCosmosUserApp, hl]

/-- C16: a call of `SignSECP256K1`, `GetPublicKeySECP256K1`,
`GetAddressPubKeySECP256K1`, `GetBip32bytes` or `CheckVersion` leaves the session
(app name and version) as it was, whatever its arguments, the transport's
behaviour and its outcome; so does every sequence of such calls. -/
theorem session_unchanged_by_calls (pf : Platform) (api : Exchange) (ledger : LedgerCosmos) :
    (∀ call, afterCall pf api ledger call = ledger)
    ∧ (∀ calls : List Call,
        (calls.foldl (afterCall pf api) ledger).appName = ledger.appName
        ∧ (calls.foldl (afterCall pf api) ledger).version = ledger.version) := by
  have hone : ∀ (l : LedgerCosmos) (call : Call), afterCall pf api l call = l := by
    intro l call
    cases call <;> rfl
  refine ⟨hone ledger, ?_⟩
  intro calls
  have hall : calls.foldl (afterCall pf api) ledger = ledger := by
    induction calls with
    | nil => rfl
    | cons c cs ih => rw [List.foldl_cons, hone, ih]
  rw [hall]
  exact ⟨rfl, rfl⟩

/-! ## Claims about the error classification of `sign` -/

/-- A format without `%` renders as itself. -/
theorem errorfText_of_no_percent :
    ∀ s : List Nat, (∀ b ∈ s, b ≠ 37) → errorfText s = some s
  | [], _ => rfl
  | [b], h => by
    have hb : b ≠ 37 := h b (by simp)
    simp [errorfText, hb]
  | b :: v :: rest, h => by
    have hb : b ≠ 37 := h b (by simp)
    have ih := errorfText_of_no_percent (v :: rest)
      (fun x hx => h x (List.mem_cons_of_mem _ hx))
    simp [errorfText, hb, ih]

/-- The three branches of lines 215-233. -/
theorem signError_classification (e : String) (s : List Nat) :
    (e = "[APDU_CODE_BAD_KEY_HANDLE] The parameters in the data field are incorrect" →
      (s = strBytes "ERROR: JSMN_ERROR_NOMEM" →
        signError e s = .errorf "Not enough tokens were provided")
      ∧ (s = strBytes "PARSER ERROR: JSMN_ERROR_INVAL" →
        signError e s = .errorf "Unexpected character in JSON string")
      ∧ (s = strBytes "PARSER ERROR: JSMN_ERROR_PART" →
        signError e s = .errorf "The JSON string is not a complete.")
      ∧ (s ≠ strBytes "ERROR: JSMN_ERROR_NOMEM" → s ≠ strBytes "PARSER ERROR: JSMN_ERROR_INVAL" →
          s ≠ strBytes "PARSER ERROR: JSMN_ERROR_PART" → signError e s = .errorfBytes s))
    ∧ (e = "[APDU_CODE_DATA_INVALID] Referenced data reversibly blocked (invalidated)" →
        signError e s = .errorfBytes s)
    ∧ (e ≠ "[APDU_CODE_BAD_KEY_HANDLE] The parameters in the data field are incorrect" →
        e ≠ "[APDU_CODE_DATA_INVALID] Referenced data reversibly blocked (invalidated)" →
        signError e s = .exchange e) := by
  refine ⟨?_, ?_, ?_⟩
  · intro he
    subst he
    refine ⟨?_, ?_, ?_, ?_⟩
    · intro hs; subst hs; decide
    · intro hs; subst hs; decide
    · intro hs; subst hs; decide
    · intro h1 h2 h3
      simp [signError, h1, h2, h3]
  · intro he
    subst he
    simp [signError]
  · intro h1 h2
    simp [signError, h1, h2]

/-- C17 (payload used as a format string): when the exchange fails with the
bad-key-handle error and the payload `%d`, `sign` returns the error built by
`fmt.Errorf("%d")`, whose text is `%!d(MISSING)` and not the payload. -/
theorem sign_error_payload_as_format :
    (sign zeroPathPlatform gitopiaSession badKeyHandleApi 1 [44, 118, 0, 0, 0] [1, 2, 3]).result
      = some ([], some (.errorfBytes (strBytes "%d")))
    ∧ errorfText (strBytes "%d") = some (strBytes "%!d(MISSING)")
    ∧ errorfText (strBytes "%d") ≠ some (strBytes "%d") := by
  refine ⟨?_, ?_, ?_⟩ <;> decide

/-! ## Claims about the exported wrappers -/

theorem addrMessage_p1 (hrp pb : List Nat) (c : Bool) :
    (addrMessage hrp pb c)[2]? = some (if c then 1 else 0) := by
  simp [addrMessage]

/-- C18: on a session named `"Gitopia"` with an encodable path,
`GetPublicKeySECP256K1` sends one request, built for the HRP `"gitopia"` with
header byte `p1 = 0`, and returns the pubkey and error of
`getAddressPubKeySECP256K1` (the first 33 response bytes when the exchange
succeeds with at least 42 bytes); for an HRP that passes validation,
`GetAddressPubKeySECP256K1` sends one request, with header byte `p1 = 1`. -/
theorem wrappers_confirmation_flag (pf : Platform) (ledger : LedgerCosmos) (api : Exchange)
    (path pb hrp : List Nat)
    (hname : ledger.appName = gitopiaAppName)
    (henc : pf.GetBip32bytesv2 path 3 = .ok pb)
    (hlen : hrp.length ≤ 83) (hbytes : ∀ b ∈ hrp, 33 ≤ b ∧ b ≤ 126) :
    (GetPublicKeySECP256K1 pf ledger api path).2.sent = [addrMessage (strBytes "gitopia") pb false]
    ∧ (addrMessage (strBytes "gitopia") pb false)[2]? = some 0
    ∧ (GetPublicKeySECP256K1 pf ledger api path).2.pubkey
        = (getAddressPubKeySECP256K1 pf ledger api path (strBytes "gitopia") false).pubkey
    ∧ (GetPublicKeySECP256K1 pf ledger api path).2.err
        = (getAddressPubKeySECP256K1 pf ledger api path (strBytes "gitopia") false).err
    ∧ ((api [] (addrMessage (strBytes "gitopia") pb false)).err = none →
        42 ≤ (api [] (addrMessage (strBytes "gitopia") pb false)).response.length →
        (GetPublicKeySECP256K1 pf ledger api path).2.pubkey
          = (api [] (addrMessage (strBytes "gitopia") pb false)).response.take 33)
    ∧ (GetAddressPubKeySECP256K1 pf ledger api path hrp).2.sent = [addrMessage hrp pb true]
    ∧ (addrMessage hrp pb true)[2]? = some 1 := by
  have hg : gitopiaHRP = strBytes "gitopia" := by decide
  have hglen : (strBytes "gitopia").length ≤ 83 := by decide
  have hgbytes : ∀ b ∈ strBytes "gitopia", 33 ≤ b ∧ b ≤ 126 := by decide
  refine ⟨?_, addrMessage_p1 _ _ _, ?_, ?_, ?_, ?_, addrMessage_p1 _ _ _⟩
  · simp only [GetPublicKeySECP256K1, hg]
    exact getAddress_sent_of_encoded pf ledger api path pb _ false hglen hgbytes hname henc
  · simp only [GetPublicKeySECP256K1, hg]
  · simp only [GetPublicKeySECP256K1, hg]
  · intro herr hlong
    have h7 : (strBytes "gitopia").length = 7 := by decide
    have hnot : ¬ (api [] (addrMessage (strBytes "gitopia") pb false)).response.length
        < 35 + (strBytes "gitopia").length := by omega
    simp only [GetPublicKeySECP256K1, hg]
    rw [getAddress_of_encoded pf ledger api path pb (strBytes "gitopia") false hglen hgbytes
      hname henc, herr]
    simp only
    rw [if_neg hnot]
  · simp only [GetAddressPubKeySECP256K1]
    exact getAddress_sent_of_encoded pf ledger api path pb hrp true hlen hbytes hname henc

/-- Witness for `wrappers_confirmation_flag`: a 20-byte encoded path and the HRP
`cosmos`. -/
theorem wrappers_confirmation_flag_witness :
    (GetPublicKeySECP256K1 zeroPathPlatform gitopiaSession cosmosAddressApi
        [44, 118, 0, 0, 0]).2.sent
      = [addrMessage (strBytes "gitopia") (List.replicate 20 0) false]
    ∧ (GetAddressPubKeySECP256K1 zeroPathPlatform gitopiaSession cosmosAddressApi
        [44, 118, 0, 0, 0] (strBytes "cosmos")).2.sent
      = [addrMessage (strBytes "cosmos") (List.replicate 20 0) true] := by
  have h := wrappers_confirmation_flag zeroPathPlatform gitopiaSession cosmosAddressApi
    [44, 118, 0, 0, 0] (List.replicate 20 0) (strBytes "cosmos") rfl rfl (by decide) (by decide)
  exact ⟨h.1, h.2.2.2.2.2.1⟩

/-! ## Claims about termination and about the requests of `sign` -/

/-- C19 (defect of the 8-bit packet counter): for a transaction of 63251 bytes,
on a transport whose every exchange returns successfully, `sign` has not returned
after any number of iterations: `packetCount` is 255, no value of the 8-bit
`packetIndex` exceeds it, and every iteration performs one more exchange. -/
theorem sign_63251_bytes_never_returns (fuel : Nat) :
    (∀ h m, (countingApi h m).err = none)
    ∧ (sign zeroPathPlatform gitopiaSession countingApi fuel [44, 118, 0, 0, 0]
        (List.replicate 63251 0)).result = none
    ∧ (sign zeroPathPlatform gitopiaSession countingApi fuel [44, 118, 0, 0, 0]
        (List.replicate 63251 0)).sent.length = fuel :=
  ⟨fun _ _ => rfl,
    sign_never_returns zeroPathPlatform gitopiaSession countingApi [44, 118, 0, 0, 0]
      (List.replicate 20 0) (List.replicate 63251 0) fuel rfl rfl (fun _ _ => rfl)
      (Nat.le_of_eq (List.length_replicate _ _).symm)
      (le_of_eq_of_le (List.length_replicate _ _) (by norm_num))⟩

/-- Two runs of the loop from states that agree on index, count, unsent bytes and
requests sent, against two transports that never fail, send the same requests
and end alike. -/
theorem signLoop_sent_independent (pf : Platform) (ledger : LedgerCosmos)
    (api1 api2 : Exchange) (path : List Nat)
    (hok1 : ∀ h m, (api1 h m).err = none) (hok2 : ∀ h m, (api2 h m).err = none) :
    ∀ (fuel idx cnt : Nat) (tx fin1 fin2 : List Nat) (sent : List Packet),
      (signLoop pf ledger api1 path fuel ⟨idx, cnt, tx, fin1, sent⟩).sent
        = (signLoop pf ledger api2 path fuel ⟨idx, cnt, tx, fin2, sent⟩).sent
      ∧ (signLoop pf ledger api1 path fuel ⟨idx, cnt, tx, fin1, sent⟩).result.map Prod.snd
        = (signLoop pf ledger api2 path fuel ⟨idx, cnt, tx, fin2, sent⟩).result.map Prod.snd := by
  intro fuel
  induction fuel with
  | zero =>
    intro idx cnt tx fin1 fin2 sent
    exact ⟨rfl, rfl⟩
  | succ f ih =>
    intro idx cnt tx fin1 fin2 sent
    by_cases hle : idx ≤ cnt
    · have hsame : signMessage pf ledger path ⟨idx, cnt, tx, fin2, sent⟩
          = signMessage pf ledger path ⟨idx, cnt, tx, fin1, sent⟩ := rfl
      cases hm : signMessage pf ledger path ⟨idx, cnt, tx, fin1, sent⟩ with
      | error e =>
        have hm2 := hsame.trans hm
        simp [signLoop, hle, hm, hm2]
      | ok cm =>
        obtain ⟨chunk, m⟩ := cm
        have hm2 := hsame.trans hm
        rw [signLoop_step_ok pf ledger api1 path f ⟨idx, cnt, tx, fin1, sent⟩ chunk m hle hm
            (hok1 _ _),
          signLoop_step_ok pf ledger api2 path f ⟨idx, cnt, tx, fin2, sent⟩ chunk m hle hm2
            (hok2 _ _)]
        exact ih _ _ _ _ _ _
    · rw [signLoop_exit pf ledger api1 path f ⟨idx, cnt, tx, fin1, sent⟩ hle,
        signLoop_exit pf ledger api2 path f ⟨idx, cnt, tx, fin2, sent⟩ hle]
      exact ⟨rfl, rfl⟩

/-- C20: for a fixed session, path and transaction, two runs of `sign` against
transports whose exchanges all succeed, whatever bytes they answer, send the same
sequence of requests; they return or not alike and with the same error value, so
that only the returned signature bytes can differ. -/
theorem sign_requests_independent_of_responses (pf : Platform) (ledger : LedgerCosmos)
    (api1 api2 : Exchange) (path tx : List Nat) (fuel : Nat)
    (hok1 : ∀ h m, (api1 h m).err = none) (hok2 : ∀ h m, (api2 h m).err = none) :
    (sign pf ledger api1 fuel path tx).sent = (sign pf ledger api2 fuel path tx).sent
    ∧ (sign pf ledger api1 fuel path tx).result.map Prod.snd
        = (sign pf ledger api2 fuel path tx).result.map Prod.snd :=
  signLoop_sent_independent pf ledger api1 api2 path hok1 hok2 fuel 1 (packetCount pf tx) tx
    [] [] []

/-- Witness for `sign_requests_independent_of_responses`: two transports that
answer differently, a 3-byte transaction. -/
theorem sign_requests_independent_of_responses_witness :
    (sign zeroPathPlatform gitopiaSession countingApi 3 [44, 118, 0, 0, 0] [1, 2, 3]).sent
      = (sign zeroPathPlatform gitopiaSession cosmosAddressApi 3 [44, 118, 0, 0, 0] [1, 2, 3]).sent
    ∧ (sign zeroPathPlatform gitopiaSession countingApi 3 [44, 118, 0, 0, 0] [1, 2, 3]).result
      ≠ (sign zeroPathPlatform gitopiaSession cosmosAddressApi 3 [44, 118, 0, 0, 0] [1, 2, 3]).result :=
  ⟨(sign_requests_independent_of_responses zeroPathPlatform gitopiaSession countingApi
      cosmosAddressApi [44, 118, 0, 0, 0] [1, 2, 3] 3 (fun _ _ => rfl) (fun _ _ => rfl)).1,
    by decide⟩

end LedgerGitopia
